import Mathlib

/-!
Verification of the Cinema Pro HDR core engine against its specification.

The development is a shallow embedding of the C++ sources:

* Scalar floats that can carry NaN/Inf (parameter validation, frame input
  boundary) are modelled by `Fp`, a rational value with non-finite sentinels;
  all of that world is computable and decidable.
* Scalar floats inside the numeric pipeline (tone curves, color math) are
  modelled by real numbers; after the input boundary every value the code
  manipulates is finite, so the code's `isfinite` re-checks are vacuously
  true in this model and are noted in doc comments where they occur.
* Images are dense pixel grids; the row-major memory layout is abstracted
  into a coordinate-indexed pixel function.

Each `C…` theorem at the end of the file settles one claim of the frozen
claim list; helper lemmas carry the analytic work.
-/

namespace CinemaProHDR

/-- Error codes of the fixed taxonomy (`include/cinema_pro_hdr/core.h`, enum `ErrorCode`). -/
inductive ErrorCode
  | SUCCESS
  | SCHEMA_MISSING
  | RANGE_PIVOT
  | RANGE_KNEE
  | NAN_INF
  | DET_MISMATCH
  | HL_FLICKER
  | DCI_BOUND
  | GAMUT_OOG
  deriving DecidableEq

/-- Three-tier fallback strategy (`tone_mapping.h`, enum `FallbackStrategy`). -/
inductive FallbackStrategy
  | PARAMETER_CORRECTION
  | STANDARD_FALLBACK
  | HARD_FALLBACK
  deriving DecidableEq

/-- Tone-curve selector (`core.h`, enum `CurveType`). -/
inductive CurveType
  | PPR
  | RLOG
  deriving DecidableEq

/-- Supported color spaces (`core.h`, enum `ColorSpace`). -/
inductive ColorSpace
  | BT2020_PQ
  | P3_D65
  | ACESG
  | REC709
  deriving DecidableEq

/-- A C++ `float` as seen by the validation layer: either a finite value
(modelled by a rational) or one of the IEEE non-finite sentinels.  NaN and the
infinities are distinguished because `std::clamp` treats them differently. -/
inductive Fp
  | val (x : ℚ)
  | nan
  | inf
  | neginf
  deriving DecidableEq

namespace Fp

/-- `NumericalProtection::IsValid`: `std::isfinite(value) && !std::isnan(value)`. -/
def isValid : Fp → Bool
  | val _ => true
  | _ => false

/-- `NumericalProtection::FixInvalid`: keep a finite value, otherwise substitute the fallback. -/
def fixInvalid (v : Fp) (fallback : ℚ) : Fp :=
  if v.isValid then v else val fallback

/-- `std::clamp(v, lo, hi)` under IEEE comparison semantics: comparisons with NaN are
false so NaN passes through; `+inf` clamps to `hi`, `-inf` to `lo`. -/
def clampF (v : Fp) (lo hi : ℚ) : Fp :=
  match v with
  | val x => val (if x < lo then lo else if hi < x then hi else x)
  | nan => nan
  | inf => val hi
  | neginf => val lo

/-- Finite payload of a float (only consulted after a successful `isValid` check). -/
def toQ : Fp → ℚ
  | val x => x
  | _ => 0

/-- A float range check `lo <= v && v <= hi`; false on non-finite values
(the C++ comparisons with NaN are false, and the callers check finiteness first). -/
def inRange (v : Fp) (lo hi : ℚ) : Bool :=
  match v with
  | val x => decide (lo ≤ x) && decide (x ≤ hi)
  | _ => false

end Fp

/-- The parameter bundle (`core.h`, struct `CphParams`) with the defaults of the source,
fields in declaration order. -/
structure CphParams where
  curve : CurveType := .PPR
  pivot_pq : Fp := .val 0.18
  gamma_s : Fp := .val 1.25
  gamma_h : Fp := .val 1.10
  shoulder_h : Fp := .val 1.5
  black_lift : Fp := .val 0.002
  highlight_detail : Fp := .val 0.2
  sat_base : Fp := .val 1.0
  sat_hi : Fp := .val 0.95
  dci_compliance : Bool := false
  deterministic : Bool := false
  rlog_a : Fp := .val 8.0
  rlog_b : Fp := .val 1.0
  rlog_c : Fp := .val 1.5
  rlog_t : Fp := .val 0.55
  yknee : Fp := .val 0.97
  alpha : Fp := .val 0.6
  toe : Fp := .val 0.002
  deriving DecidableEq

/-- The default-constructed bundle. -/
def CphParams.defaults : CphParams := {}

/-- `CphParams::IsValid` (`unnamed/part_003`): finiteness of every float field, then
the per-field range checks of the range table. -/
def CphParams.IsValid (p : CphParams) : Bool :=
  p.pivot_pq.isValid && p.gamma_s.isValid && p.gamma_h.isValid && p.shoulder_h.isValid &&
  p.rlog_a.isValid && p.rlog_b.isValid && p.rlog_c.isValid && p.rlog_t.isValid &&
  p.black_lift.isValid && p.highlight_detail.isValid && p.sat_base.isValid &&
  p.sat_hi.isValid && p.yknee.isValid && p.alpha.isValid && p.toe.isValid &&
  p.pivot_pq.inRange 0.05 0.30 &&
  p.gamma_s.inRange 1.0 1.6 && p.gamma_h.inRange 0.8 1.4 && p.shoulder_h.inRange 0.5 3.0 &&
  p.rlog_a.inRange 1.0 16.0 && p.rlog_b.inRange 0.8 1.2 && p.rlog_c.inRange 0.5 3.0 &&
  p.rlog_t.inRange 0.4 0.7 &&
  p.black_lift.inRange 0.0 0.02 && p.highlight_detail.inRange 0.0 1.0 &&
  p.sat_base.inRange 0.0 2.0 && p.sat_hi.inRange 0.0 2.0 &&
  p.yknee.inRange 0.95 0.99 && p.alpha.inRange 0.2 1.0 && p.toe.inRange 0.0 0.01

/-- `CphParams::ClampToValidRange` (`unnamed/part_003`): first replace non-finite fields
with the midpoint of their range (the literal fallback constants of the source), then
coordinate-clamp every field to its range. -/
def CphParams.ClampToValidRange (p : CphParams) : CphParams :=
  { p with
    pivot_pq := (p.pivot_pq.fixInvalid 0.175).clampF 0.05 0.30
    gamma_s := (p.gamma_s.fixInvalid 1.3).clampF 1.0 1.6
    gamma_h := (p.gamma_h.fixInvalid 1.1).clampF 0.8 1.4
    shoulder_h := (p.shoulder_h.fixInvalid 1.75).clampF 0.5 3.0
    rlog_a := (p.rlog_a.fixInvalid 8.5).clampF 1.0 16.0
    rlog_b := (p.rlog_b.fixInvalid 1.0).clampF 0.8 1.2
    rlog_c := (p.rlog_c.fixInvalid 1.75).clampF 0.5 3.0
    rlog_t := (p.rlog_t.fixInvalid 0.55).clampF 0.4 0.7
    black_lift := (p.black_lift.fixInvalid 0.01).clampF 0.0 0.02
    highlight_detail := (p.highlight_detail.fixInvalid 0.5).clampF 0.0 1.0
    sat_base := (p.sat_base.fixInvalid 1.0).clampF 0.0 2.0
    sat_hi := (p.sat_hi.fixInvalid 1.0).clampF 0.0 2.0
    yknee := (p.yknee.fixInvalid 0.97).clampF 0.95 0.99
    alpha := (p.alpha.fixInvalid 0.6).clampF 0.2 1.0
    toe := (p.toe.fixInvalid 0.005).clampF 0.0 0.01 }

/-- `ErrorHandler::DetermineFallbackStrategy` (`unnamed/part_001`): the tier taxonomy.
`NAN_INF` shares the `default` arm of the C++ switch, both yielding the hard fallback. -/
def DetermineFallbackStrategy : ErrorCode → FallbackStrategy
  | .RANGE_PIVOT | .RANGE_KNEE => .PARAMETER_CORRECTION
  | .SCHEMA_MISSING | .DCI_BOUND | .GAMUT_OOG | .DET_MISMATCH | .HL_FLICKER =>
      .STANDARD_FALLBACK
  | _ => .HARD_FALLBACK

/-- `ErrorHandler::CorrectParameter`: clamp to the range; if the result is still
non-finite, substitute the midpoint of the range. -/
def CorrectParameter (param : Fp) (lo hi : ℚ) : Fp :=
  let c := param.clampF lo hi
  if c.isValid then c else .val ((lo + hi) * 0.5)

/-- Result of one `ErrorHandler::ValidateFloatRange` call: the (possibly corrected)
value, whether a correction happened, and the error code handed to `HandleError`. -/
structure RangeCheck where
  value : Fp
  corrected : Bool
  emitted : Option ErrorCode
  deriving DecidableEq

/-- `ErrorHandler::ValidateFloatRange` (`unnamed/part_001`): a non-finite value emits
`NAN_INF` and is corrected; a finite out-of-range value emits `RANGE_PIVOT`
(the source uses this code for every range violation, whatever the field) and is
corrected; otherwise the value is untouched. -/
def ValidateFloatRange (value : Fp) (lo hi : ℚ) : RangeCheck :=
  if value.isValid = false then
    { value := CorrectParameter value lo hi, corrected := true, emitted := some .NAN_INF }
  else if value.toQ < lo ∨ hi < value.toQ then
    { value := CorrectParameter value lo hi, corrected := true, emitted := some .RANGE_PIVOT }
  else
    { value := value, corrected := false, emitted := none }

/-- `ErrorHandler::ValidateAndCorrectParams` (`unnamed/part_001`): run
`ValidateFloatRange` over every float field in source order, returning the corrected
bundle, whether any correction occurred, and the emitted error codes in order. -/
def ValidateAndCorrectParams (p : CphParams) : CphParams × Bool × List ErrorCode :=
  let r1 := ValidateFloatRange p.pivot_pq 0.05 0.30
  let r2 := ValidateFloatRange p.gamma_s 1.0 1.6
  let r3 := ValidateFloatRange p.gamma_h 0.8 1.4
  let r4 := ValidateFloatRange p.shoulder_h 0.5 3.0
  let r5 := ValidateFloatRange p.black_lift 0.0 0.02
  let r6 := ValidateFloatRange p.highlight_detail 0.0 1.0
  let r7 := ValidateFloatRange p.sat_base 0.0 2.0
  let r8 := ValidateFloatRange p.sat_hi 0.0 2.0
  let r9 := ValidateFloatRange p.rlog_a 1.0 16.0
  let r10 := ValidateFloatRange p.rlog_b 0.8 1.2
  let r11 := ValidateFloatRange p.rlog_c 0.5 3.0
  let r12 := ValidateFloatRange p.rlog_t 0.4 0.7
  let r13 := ValidateFloatRange p.yknee 0.95 0.99
  let r14 := ValidateFloatRange p.alpha 0.2 1.0
  let r15 := ValidateFloatRange p.toe 0.0 0.01
  ({ p with
      pivot_pq := r1.value, gamma_s := r2.value, gamma_h := r3.value,
      shoulder_h := r4.value, black_lift := r5.value, highlight_detail := r6.value,
      sat_base := r7.value, sat_hi := r8.value, rlog_a := r9.value, rlog_b := r10.value,
      rlog_c := r11.value, rlog_t := r12.value, yknee := r13.value, alpha := r14.value,
      toe := r15.value },
   r1.corrected || r2.corrected || r3.corrected || r4.corrected || r5.corrected ||
     r6.corrected || r7.corrected || r8.corrected || r9.corrected || r10.corrected ||
     r11.corrected || r12.corrected || r13.corrected || r14.corrected || r15.corrected,
   [r1.emitted, r2.emitted, r3.emitted, r4.emitted, r5.emitted, r6.emitted, r7.emitted,
    r8.emitted, r9.emitted, r10.emitted, r11.emitted, r12.emitted, r13.emitted,
    r14.emitted, r15.emitted].filterMap id)

noncomputable section

open scoped Classical

/-- Real-valued view of the parameter bundle, as consumed by the numeric pipeline after
validation (`ToneMapper` and `CphProcessor` copy a `CphParams` whose fields are all
finite, so the float fields are modelled directly by reals).  Defaults as in `core.h`. -/
structure CphParamsR where
  curve : CurveType := .PPR
  pivot_pq : ℝ := 0.18
  gamma_s : ℝ := 1.25
  gamma_h : ℝ := 1.10
  shoulder_h : ℝ := 1.5
  black_lift : ℝ := 0.002
  highlight_detail : ℝ := 0.2
  sat_base : ℝ := 1.0
  sat_hi : ℝ := 0.95
  dci_compliance : Bool := false
  deterministic : Bool := false
  rlog_a : ℝ := 8.0
  rlog_b : ℝ := 1.0
  rlog_c : ℝ := 1.5
  rlog_t : ℝ := 0.55
  yknee : ℝ := 0.97
  alpha : ℝ := 0.6
  toe : ℝ := 0.002

/-- Every float field inside the admissible range of the range table. -/
def CphParamsR.InRange (P : CphParamsR) : Prop :=
  0.05 ≤ P.pivot_pq ∧ P.pivot_pq ≤ 0.30 ∧
  1.0 ≤ P.gamma_s ∧ P.gamma_s ≤ 1.6 ∧
  0.8 ≤ P.gamma_h ∧ P.gamma_h ≤ 1.4 ∧
  0.5 ≤ P.shoulder_h ∧ P.shoulder_h ≤ 3.0 ∧
  0.0 ≤ P.black_lift ∧ P.black_lift ≤ 0.02 ∧
  0.0 ≤ P.highlight_detail ∧ P.highlight_detail ≤ 1.0 ∧
  0.0 ≤ P.sat_base ∧ P.sat_base ≤ 2.0 ∧
  0.0 ≤ P.sat_hi ∧ P.sat_hi ≤ 2.0 ∧
  1.0 ≤ P.rlog_a ∧ P.rlog_a ≤ 16.0 ∧
  0.8 ≤ P.rlog_b ∧ P.rlog_b ≤ 1.2 ∧
  0.5 ≤ P.rlog_c ∧ P.rlog_c ≤ 3.0 ∧
  0.4 ≤ P.rlog_t ∧ P.rlog_t ≤ 0.7 ∧
  0.95 ≤ P.yknee ∧ P.yknee ≤ 0.99 ∧
  0.2 ≤ P.alpha ∧ P.alpha ≤ 1.0 ∧
  0.0 ≤ P.toe ∧ P.toe ≤ 0.01

/-- The default real bundle (PPR curve). -/
def CphParamsR.defaults : CphParamsR := {}

/-- The default bundle switched to the RLOG curve. -/
def CphParamsR.defaultsRLOG : CphParamsR := { curve := .RLOG }

/-- `std::clamp(v, lo, hi)` on finite reals. -/
def clampR (v lo hi : ℝ) : ℝ :=
  if v < lo then lo else if hi < v then hi else v

namespace ToneMapper

/-- `ToneMapper::SmoothStep` (`src/core/highlight_detail.cpp`): returns 0 when the
edges are degenerate, else the cubic Hermite ramp of the clamped position. -/
def SmoothStep (edge0 edge1 x : ℝ) : ℝ :=
  if edge1 ≤ edge0 then 0
  else
    let s := clampR ((x - edge0) / (edge1 - edge0)) 0 1
    s * s * (3 - 2 * s)

/-- `ToneMapper::Mix`: unclamped linear interpolation `a + t*(b-a)`. -/
def Mix (a b t : ℝ) : ℝ := a + t * (b - a)

/-- `ToneMapper::PPRShadowSegment`: power curve below the pivot, pinned to `p` at and
above the pivot. -/
def PPRShadowSegment (P : CphParamsR) (x : ℝ) : ℝ :=
  let p := P.pivot_pq
  if x ≤ 0 then 0
  else if p ≤ 0 then x
  else if x ≥ p then p
  else (x / p) ^ P.gamma_s * p

/-- `ToneMapper::PPRHighlightSegment`: rational-power curve above the pivot, pinned to
`p` at and below the pivot; the normalized coordinate is capped at 1. -/
def PPRHighlightSegment (P : CphParamsR) (x : ℝ) : ℝ :=
  let p := P.pivot_pq
  if x ≤ p then p
  else
    let u0 := (x - p) / (1 - p)
    if u0 ≤ 0 then p
    else
      let u := if u0 ≥ 1 then 1 else u0
      let d := 1 + P.shoulder_h * u
      if d ≤ 0 then x
      else p + (u / d) ^ P.gamma_h * (1 - p)

/-- `ToneMapper::ApplyPPR`: the two segments smooth-blended over a window of half-width
`0.1*p` centered at the pivot. -/
def ApplyPPR (P : CphParamsR) (x : ℝ) : ℝ :=
  let p := P.pivot_pq
  let shadow_value := PPRShadowSegment P x
  let highlight_value := PPRHighlightSegment P x
  let blend_range := p * 0.1
  if x ≤ p - blend_range then shadow_value
  else if x ≥ p + blend_range then highlight_value
  else Mix shadow_value highlight_value (SmoothStep (p - blend_range) (p + blend_range) x)

/-- `ToneMapper::RLOGDarkSegment`: `log(1+a*x)/log(1+a)` with edge guards. -/
def RLOGDarkSegment (P : CphParamsR) (x : ℝ) : ℝ :=
  let a := P.rlog_a
  if x ≤ 0 then 0
  else if x ≥ 1 then 1
  else
    let num := Real.log (1 + a * x)
    let den := Real.log (1 + a)
    if den ≤ 0 then x else num / den

/-- `ToneMapper::RLOGHighlightSegment`: `b*x/(1+c*x)` with edge guards. -/
def RLOGHighlightSegment (P : CphParamsR) (x : ℝ) : ℝ :=
  let b := P.rlog_b
  let c := P.rlog_c
  if x ≤ 0 then 0
  else if x ≥ 1 then b / (1 + c)
  else
    let d := 1 + c * x
    if d ≤ 0 then x else b * x / d

/-- `ToneMapper::ApplyRLOG`: dark and (continuity-rescaled) highlight segments
smooth-blended over a window of half-width 0.05 centered at the splice threshold. -/
def ApplyRLOG (P : CphParamsR) (x : ℝ) : ℝ :=
  let t := P.rlog_t
  let blend_range : ℝ := 0.05
  let dark_at_t := RLOGDarkSegment P t
  let highlight_raw_at_t := RLOGHighlightSegment P t
  let scale_factor := if highlight_raw_at_t > 0 then dark_at_t / highlight_raw_at_t else 1
  let y1 := RLOGDarkSegment P x
  let y2 := RLOGHighlightSegment P x * scale_factor
  if x < t - blend_range then y1
  else if x > t + blend_range then y2
  else Mix y1 y2 (SmoothStep (t - blend_range) (t + blend_range) x)

/-- `ToneMapper::ApplySoftKnee`: smooth rational compression of the excess above the
knee point. -/
def ApplySoftKnee (P : CphParamsR) (y : ℝ) : ℝ :=
  let yknee := P.yknee
  if y ≤ yknee then y
  else
    let excess := y - yknee
    let max_excess := 1 - yknee
    if max_excess ≤ 0 then yknee
    else
      let n := excess / max_excess
      yknee + n / (1 + P.alpha * n) * max_excess

/-- `ToneMapper::ApplyToeClamp`: lower bound positive outputs by `toe`, preserving
`y = 0` exactly. -/
def ApplyToeClamp (P : CphParamsR) (y : ℝ) : ℝ :=
  if P.toe ≤ 0 ∨ y ≤ 0 then y else max y P.toe

/-- `ToneMapper::ApplyToneMapping`: input clamp, curve selection, soft knee, toe clamp,
output clamp.  The `NumericalProtection::IsValid` guard on the input is vacuous in the
real model (every real is finite) and therefore omitted; the claims assume an
initialized mapper, so the uninitialized early-return is not modelled. -/
def ApplyToneMapping (P : CphParamsR) (luminance : ℝ) : ℝ :=
  let x := clampR luminance 0 1
  let y := if P.curve = .PPR then ApplyPPR P x else ApplyRLOG P x
  clampR (ApplyToeClamp P (ApplySoftKnee P y)) 0 1

/-- `ToneMapper::GenerateSamplePoints`: `sample_count` uniform points on `[0,1]` plus
`problem_points` points around the pivot (PPR, offsets of absolute width 0.1) or the
splice threshold (RLOG, offsets of absolute width 0.2), clamped to `[0,1]`, then
sorted and deduplicated (`std::sort` + `std::unique`). -/
def GenerateSamplePoints (P : CphParamsR) (sample_count problem_points : ℕ) : List ℝ :=
  let uniform := (List.range sample_count).map
    (fun i => (i : ℝ) / ((sample_count : ℝ) - 1))
  let problem :=
    if P.curve = .PPR then
      (List.range problem_points).map
        (fun i => clampR (P.pivot_pq + ((i : ℝ) / (problem_points : ℝ) - 0.5) * 0.1) 0 1)
    else
      (List.range problem_points).map
        (fun i => clampR (P.rlog_t + ((i : ℝ) / (problem_points : ℝ) - 0.5) * 0.2) 0 1)
  ((uniform ++ problem).insertionSort (· ≤ ·)).destutter (· ≠ ·)

/-- `ToneMapper::ValidateMonotonicity`: every consecutive pair of the sorted sample
grid maps to a non-decreasing pair of curve values.  (The C++ loop threads a `prev`
value starting at `-1`; the first comparison never fails because the curve output is
clamped to `[0,1]`, so the loop passes exactly when this chain condition holds.) -/
def ValidateMonotonicity (P : CphParamsR) (sample_count problem_points : ℕ) : Prop :=
  (GenerateSamplePoints P sample_count problem_points).Chain'
    (fun x y => ApplyToneMapping P x ≤ ApplyToneMapping P y)

end ToneMapper

/-- The smoothstep weight of the RLOG splice window as an unclamped polynomial: on the
window it agrees with the clamped smoothstep of `ToneMapper::SmoothStep`. -/
def smoothW (t x : ℝ) : ℝ :=
  let u := (x - t + 1/20) * 10
  u * u * (3 - 2 * u)

/-- Soft-knee parameters of the C3 counterexample: knee onset 0.95, strength 0.2. -/
def kneeCexParams : CphParamsR := { yknee := 0.95, alpha := 0.2 }


/-- One pixel worth of channels: the code's `float[3]`, in the real model. -/
structure RGB where
  r : ℝ
  g : ℝ
  b : ℝ

namespace NumericalUtils

/-- `NumericalUtils::IsFinite`: every value of the real model is finite, so this is
constantly true and the branches guarded by its negation are dead. -/
def IsFinite (_ : ℝ) : Bool := true

/-- `NumericalUtils::IsFiniteRGB`. -/
def IsFiniteRGB (p : RGB) : Bool := IsFinite p.r && IsFinite p.g && IsFinite p.b

/-- `NumericalUtils::SaturateRGB`: clamp every channel to `[0,1]`. -/
def SaturateRGB (p : RGB) : RGB := ⟨clampR p.r 0 1, clampR p.g 0 1, clampR p.b 0 1⟩

/-- `NumericalUtils::SmoothStep`: unlike `ToneMapper::SmoothStep`, the degenerate-edge
case returns a hard step. -/
def SmoothStep (edge0 edge1 x : ℝ) : ℝ :=
  if edge1 ≤ edge0 then (if x ≥ edge1 then 1 else 0)
  else
    let t := clampR ((x - edge0) / (edge1 - edge0)) 0 1
    t * t * (3 - 2 * t)

/-- `NumericalUtils::Mix`: linear interpolation with the weight clamped to `[0,1]`. -/
def Mix (a b t : ℝ) : ℝ :=
  let w := clampR t 0 1
  a * (1 - w) + b * w

end NumericalUtils

namespace ColorSpaceConverter

/-- ST 2084 constant `m1`. -/
def PQ_M1 : ℝ := 0.1593017578125

/-- ST 2084 constant `m2`. -/
def PQ_M2 : ℝ := 78.84375

/-- ST 2084 constant `c1`. -/
def PQ_C1 : ℝ := 0.8359375

/-- ST 2084 constant `c2`. -/
def PQ_C2 : ℝ := 18.8515625

/-- ST 2084 constant `c3`. -/
def PQ_C3 : ℝ := 18.6875

/-- `ColorSpaceConverter::PQ_EOTF` (ST 2084): `[0,1] → [0,10000]` cd/m² (the
non-finite input guard is vacuous in the real model). -/
def PQ_EOTF (pq_value : ℝ) : ℝ :=
  if pq_value ≤ 0 then 0
  else if pq_value ≥ 1 then 10000
  else
    let pq_pow := pq_value ^ (1 / PQ_M2)
    let numerator := max 0 (pq_pow - PQ_C1)
    let denominator := PQ_C2 - PQ_C3 * pq_pow
    if denominator ≤ 0 then 10000
    else (numerator / denominator) ^ (1 / PQ_M1) * 10000

/-- `ColorSpaceConverter::PQ_OETF` (ST 2084): inverse direction with the same edge
behavior. -/
def PQ_OETF (linear_value : ℝ) : ℝ :=
  if linear_value ≤ 0 then 0
  else
    let normalized := linear_value / 10000
    if normalized ≥ 1 then 1
    else
      let pow_m1 := normalized ^ PQ_M1
      let numerator := PQ_C1 + PQ_C2 * pow_m1
      let denominator := 1 + PQ_C3 * pow_m1
      if denominator ≤ 0 then 1
      else (numerator / denominator) ^ PQ_M2

/-- Vectorized `PQ_EOTF_RGB`. -/
def PQ_EOTF_RGB (p : RGB) : RGB := ⟨PQ_EOTF p.r, PQ_EOTF p.g, PQ_EOTF p.b⟩

/-- Vectorized `PQ_OETF_RGB`. -/
def PQ_OETF_RGB (p : RGB) : RGB := ⟨PQ_OETF p.r, PQ_OETF p.g, PQ_OETF p.b⟩

/-- `ColorSpaceConverter::MultiplyMatrix3x3` with a row-major constant matrix. -/
def MultiplyMatrix3x3 (m0 m1 m2 m3 m4 m5 m6 m7 m8 : ℝ) (p : RGB) : RGB :=
  ⟨m0 * p.r + m1 * p.g + m2 * p.b,
   m3 * p.r + m4 * p.g + m5 * p.b,
   m6 * p.r + m7 * p.g + m8 * p.b⟩

/-- `BT2020_to_P3D65`: the matrix constant of `color_space.h` is an identity
placeholder in the source, and the multiplication is still performed. -/
def BT2020_to_P3D65 (p : RGB) : RGB := MultiplyMatrix3x3 1 0 0 0 1 0 0 0 1 p

/-- `P3D65_to_BT2020`: identity placeholder matrix, as in `color_space.h`. -/
def P3D65_to_BT2020 (p : RGB) : RGB := MultiplyMatrix3x3 1 0 0 0 1 0 0 0 1 p

/-- `BT2020_to_ACEScg`: identity placeholder matrix, as in `color_space.h`. -/
def BT2020_to_ACEScg (p : RGB) : RGB := MultiplyMatrix3x3 1 0 0 0 1 0 0 0 1 p

/-- `ACEScg_to_BT2020`: identity placeholder matrix, as in `color_space.h`. -/
def ACEScg_to_BT2020 (p : RGB) : RGB := MultiplyMatrix3x3 1 0 0 0 1 0 0 0 1 p

/-- `ColorSpaceConverter::IsInGamut`: the target gamut box, `[0,1]` per channel for the
standard spaces and `[-0.5, 2]` per channel for ACEScg. -/
def IsInGamut (p : RGB) (cs : ColorSpace) : Prop :=
  match cs with
  | .BT2020_PQ | .P3_D65 | .REC709 =>
      0 ≤ p.r ∧ p.r ≤ 1 ∧ 0 ≤ p.g ∧ p.g ≤ 1 ∧ 0 ≤ p.b ∧ p.b ≤ 1
  | .ACESG =>
      -0.5 ≤ p.r ∧ p.r ≤ 2 ∧ -0.5 ≤ p.g ∧ p.g ≤ 2 ∧ -0.5 ≤ p.b ∧ p.b ≤ 2

/-- `ColorSpaceConverter::ClampToGamut`: coordinate clamp onto the gamut box. -/
def ClampToGamut (p : RGB) (cs : ColorSpace) : RGB :=
  match cs with
  | .BT2020_PQ | .P3_D65 | .REC709 =>
      ⟨clampR p.r 0 1, clampR p.g 0 1, clampR p.b 0 1⟩
  | .ACESG =>
      ⟨clampR p.r (-0.5) 2, clampR p.g (-0.5) 2, clampR p.b (-0.5) 2⟩

/-- `ColorSpaceConverter::LinearGamutCompression` (stage 1): scale down by the maximal
channel when it exceeds the cap (1, or 2 for ACEScg), then floor the negatives (at 0,
or -0.5 for ACEScg). -/
def LinearGamutCompression (p : RGB) (cs : ColorSpace) : RGB :=
  match cs with
  | .BT2020_PQ | .P3_D65 | .REC709 =>
      let max_val := max p.r (max p.g p.b)
      let q := if max_val > 1 then
          (⟨p.r * (1 / max_val), p.g * (1 / max_val), p.b * (1 / max_val)⟩ : RGB)
        else p
      ⟨max 0 q.r, max 0 q.g, max 0 q.b⟩
  | .ACESG =>
      let max_val := max p.r (max p.g p.b)
      let q := if max_val > 2 then
          (⟨p.r * (2 / max_val), p.g * (2 / max_val), p.b * (2 / max_val)⟩ : RGB)
        else p
      ⟨max (-0.5) q.r, max (-0.5) q.g, max (-0.5) q.b⟩

/-- `ColorSpaceConverter::CubeRoot`: sign-preserving cube root. -/
def CubeRoot (x : ℝ) : ℝ :=
  if x ≥ 0 then x ^ ((1:ℝ) / 3) else -((-x) ^ ((1:ℝ) / 3))

/-- `ColorSpaceConverter::CubePower`. -/
def CubePower (x : ℝ) : ℝ := x * x * x

/-- `ColorSpaceConverter::RGB_to_OKLab`: LMS matrix, non-negativity clamp, cube root,
OKLab matrix (constants of `color_space.h`; the finite guards are vacuous here). -/
def RGB_to_OKLab (p : RGB) : RGB :=
  let lms0 := MultiplyMatrix3x3 0.4122214708 0.5363325363 0.0514459929
    0.2119034982 0.6806995451 0.1073969566
    0.0883024619 0.2817188376 0.6299787005 p
  let lms : RGB := ⟨max 0 lms0.r, max 0 lms0.g, max 0 lms0.b⟩
  let lmsp : RGB := ⟨CubeRoot lms.r, CubeRoot lms.g, CubeRoot lms.b⟩
  MultiplyMatrix3x3 0.2104542553 0.7936177850 (-0.0040720468)
    1.9779984951 (-2.4285922050) 0.4505937099
    0.0259040371 0.7827717662 (-0.8086757660) lmsp

/-- `ColorSpaceConverter::OKLab_to_RGB`: inverse OKLab matrix, cube, inverse LMS
matrix. -/
def OKLab_to_RGB (lab : RGB) : RGB :=
  let lmsp := MultiplyMatrix3x3
    0.99999999845051981432 0.39633779217376785678 0.21580375806075880339
    1.0000000088817607767 (-0.1055613423236563494) (-0.063854174771705903402)
    1.0000000546724109177 (-0.089484182094965759684) (-1.2914855378640917399) lab
  let lms : RGB := ⟨CubePower lmsp.r, CubePower lmsp.g, CubePower lmsp.b⟩
  MultiplyMatrix3x3 4.0767416621 (-3.3077115913) 0.2309699292
    (-1.2684380046) 2.6097574011 (-0.3413193965)
    (-0.0041960863) (-0.7034186147) 1.7076147010 lms

/-- `ColorSpaceConverter::ApplyBaseSaturation`: scale the chroma channels by the
clamped saturation; L is untouched. -/
def ApplyBaseSaturation (lab : RGB) (saturation : ℝ) : RGB :=
  let s := clampR saturation 0 2
  ⟨lab.r, lab.g * s, lab.b * s⟩

/-- `ColorSpaceConverter::ApplyHighlightSaturation`: mix the chroma channels toward
their `saturation`-scaled targets with the clamped weight; L is untouched.  The
`saturation` argument arrives exactly as the caller passes it: no caller of the source
multiplies `sat_hi` by 0.925 in DCI mode. -/
def ApplyHighlightSaturation (lab : RGB) (saturation weight : ℝ) : RGB :=
  let s := clampR saturation 0 2
  let w := clampR weight 0 1
  ⟨lab.r, NumericalUtils.Mix lab.g (lab.g * s) w, NumericalUtils.Mix lab.b (lab.b * s) w⟩

/-- `ColorSpaceConverter::ApplySaturation` (`unnamed/part_000`): clamp the parameters,
convert to OKLab, base saturation, highlight saturation with weight
`smoothstep(pivot, 1, x_luminance)`, convert back. -/
def ApplySaturation (p : RGB) (sat_base sat_hi pivot_pq x_luminance : ℝ) : RGB :=
  let sb := clampR sat_base 0 2
  let sh := clampR sat_hi 0 2
  let pv := clampR pivot_pq 0.05 0.30
  let xl := clampR x_luminance 0 1
  let lab := RGB_to_OKLab p
  let lab1 := ApplyBaseSaturation lab sb
  let w_hi := NumericalUtils.SmoothStep pv 1 xl
  let lab2 := ApplyHighlightSaturation lab1 sh w_hi
  OKLab_to_RGB lab2

/-- Iteration core of `PerceptualGamutClamp`: convert the OKLab iterate back to RGB and
accept it if inside the gamut, else shrink the chroma by 0.9 and retry; when the fuel
is exhausted the last iterate is converted and coordinate-clamped. -/
def PerceptualClampLoop (cs : ColorSpace) : ℕ → RGB → RGB
  | 0, lab => ClampToGamut (OKLab_to_RGB lab) cs
  | n + 1, lab =>
      let test := OKLab_to_RGB lab
      if IsInGamut test cs then test
      else PerceptualClampLoop cs n ⟨lab.r, lab.g * 0.9, lab.b * 0.9⟩

/-- `ColorSpaceConverter::PerceptualGamutClamp` (stage 2): up to 10 chroma-reduction
iterations in OKLab, L held fixed. -/
def PerceptualGamutClamp (p : RGB) (cs : ColorSpace) : RGB :=
  PerceptualClampLoop cs 10 (RGB_to_OKLab p)

/-- `ColorSpaceConverter::ApplyGamutProcessing` (`unnamed/part_000`): stage-1 linear
compression; stage-2 perceptual clamp whenever DCI mode is on or the pixel is still
out of gamut; a final coordinate clamp onto the gamut box; the report is whether the
input pixel was out of gamut.  The non-finite guards are vacuous in the real model. -/
def ApplyGamutProcessing (p : RGB) (target_cs : ColorSpace) (dci_compliance : Bool) :
    RGB × Prop :=
  let was_out_of_gamut := ¬ IsInGamut p target_cs
  let s1 := LinearGamutCompression p target_cs
  let s2 := if dci_compliance = true ∨ ¬ IsInGamut s1 target_cs
    then PerceptualGamutClamp s1 target_cs else s1
  (ClampToGamut s2 target_cs, was_out_of_gamut)

end ColorSpaceConverter

/-- A frame inside the numeric pipeline (struct `Image`): dimensions, a pixel function
(channels fixed at 3, row-major storage abstracted) and a color-space tag. -/
structure ImageR where
  width : ℕ
  height : ℕ
  pix : ℕ → ℕ → RGB
  color_space : ColorSpace

/-- `Image::IsValid` for pipeline-internal images: positive dimensions (finiteness is
automatic in the real model and the data length is structural here). -/
def ImageR.IsValid (img : ImageR) : Prop := 0 < img.width ∧ 0 < img.height

/-- A pixel of an input frame, channels modelled by `Fp` so that NaN/Inf data is
representable. -/
structure FRGB where
  r : Fp
  g : Fp
  b : Fp
  deriving DecidableEq

/-- `NumericalUtils::IsFiniteRGB` on boundary pixels. -/
def FRGB.isFiniteRGB (p : FRGB) : Bool := p.r.isValid && p.g.isValid && p.b.isValid

/-- Real view of a finite boundary pixel. -/
def FRGB.toRGB (p : FRGB) : RGB := ⟨(p.r.toQ : ℝ), (p.g.toQ : ℝ), (p.b.toQ : ℝ)⟩

/-- An input frame, possibly carrying non-finite channel values. -/
structure ImageF where
  width : ℕ
  height : ℕ
  pix : ℕ → ℕ → FRGB
  color_space : ColorSpace

/-- `Image::IsValid` on input frames: positive dimensions and every channel value
finite (the data-vector length check of the C++ is structural in this model). -/
def ImageF.IsValid (img : ImageF) : Bool :=
  decide (0 < img.width) && decide (0 < img.height) &&
  (List.range img.height).all (fun y =>
    (List.range img.width).all (fun x => (img.pix x y).isFiniteRGB))

namespace ColorSpaceConverter

/-- `ColorSpaceConverter::ToWorkingDomain` (`unnamed/part_000`): per pixel, a
non-finite source pixel becomes black `(0,0,0)`; otherwise the pixel is converted to
the BT.2020+PQ working domain (through the identity placeholder matrices and the PQ
OETF where the tag requires it) and saturated to `[0,1]`. -/
def ToWorkingDomain (input : ImageF) : ImageR :=
  { width := input.width, height := input.height, color_space := .BT2020_PQ,
    pix := fun x y =>
      let src := input.pix x y
      if src.isFiniteRGB = false then ⟨0, 0, 0⟩
      else
        let dst :=
          match input.color_space with
          | .BT2020_PQ => src.toRGB
          | .P3_D65 => PQ_OETF_RGB (P3D65_to_BT2020 src.toRGB)
          | .ACESG => PQ_OETF_RGB (ACEScg_to_BT2020 src.toRGB)
          | .REC709 => src.toRGB
        NumericalUtils.SaturateRGB dst }

/-- `ColorSpaceConverter::FromWorkingDomain`: per pixel, convert to the target space
(PQ EOTF then the placeholder matrix where the tag requires it) and clamp onto the
target gamut box. -/
def FromWorkingDomain (input : ImageR) (target_cs : ColorSpace) : ImageR :=
  { width := input.width, height := input.height, color_space := target_cs,
    pix := fun x y =>
      let src := input.pix x y
      let dst :=
        match target_cs with
        | .BT2020_PQ => src
        | .P3_D65 => BT2020_to_P3D65 (PQ_EOTF_RGB src)
        | .ACESG => BT2020_to_ACEScg (PQ_EOTF_RGB src)
        | .REC709 => src
      ClampToGamut dst target_cs }

end ColorSpaceConverter

/-- Single-channel mask image. -/
structure MaskR where
  width : ℕ
  height : ℕ
  pix : ℕ → ℕ → ℝ

namespace HighlightDetailUtils

/-- `HighlightDetailUtils::ComputeHighlightMask` (`src/core/highlight_detail.cpp`):
MaxRGB luminance; zero at or below the pivot, clamped smooth ramp above it. -/
def ComputeHighlightMask (image : ImageR) (pivot_threshold : ℝ) : MaskR :=
  { width := image.width, height := image.height,
    pix := fun x y =>
      let p := image.pix x y
      let luminance := max p.r (max p.g p.b)
      if luminance > pivot_threshold then
        clampR ((luminance - pivot_threshold) / (1 - pivot_threshold)) 0 1
      else 0 }

end HighlightDetailUtils

namespace HighlightDetailProcessor

/-- Edge extension of the blur: `std::clamp(i, 0, n-1)` on a possibly negative index. -/
def clampIdx (i : ℤ) (n : ℕ) : ℕ := (min (max i 0) ((n : ℤ) - 1)).toNat

/-- One unnormalized Gaussian kernel sample `exp(-(i-radius)²/(2σ²))`. -/
def gaussRaw (radius : ℕ) (sigma : ℝ) (i : ℕ) : ℝ :=
  Real.exp (-(((i : ℝ) - (radius : ℝ)) ^ 2) / (2 * sigma ^ 2))

/-- `HighlightDetailProcessor::ComputeGaussianKernel`: the samples normalized to unit
sum. -/
def gaussKernel (radius : ℕ) (sigma : ℝ) (i : ℕ) : ℝ :=
  gaussRaw radius sigma i / ∑ j ∈ Finset.range (2 * radius + 1), gaussRaw radius sigma j

/-- `HighlightDetailProcessor::ApplyGaussianBlur`: separable horizontal-then-vertical
pass with clamped source indices. -/
def ApplyGaussianBlur (input : ImageR) (radius : ℕ) (sigma : ℝ) : ImageR :=
  let temp : ℕ → ℕ → RGB := fun x y =>
    let s : (RGB → ℝ) → ℝ := fun ch =>
      ∑ k ∈ Finset.range (2 * radius + 1),
        ch (input.pix (clampIdx ((x : ℤ) + (k : ℤ) - (radius : ℤ)) input.width) y) *
          gaussKernel radius sigma k
    ⟨s RGB.r, s RGB.g, s RGB.b⟩
  { width := input.width, height := input.height, color_space := input.color_space,
    pix := fun x y =>
      let s : (RGB → ℝ) → ℝ := fun ch =>
        ∑ k ∈ Finset.range (2 * radius + 1),
          ch (temp x (clampIdx ((y : ℤ) + (k : ℤ) - (radius : ℤ)) input.height)) *
            gaussKernel radius sigma k
      ⟨s RGB.r, s RGB.g, s RGB.b⟩ }

/-- Per-channel thresholding of the unsharp difference: amplify when above the
threshold in magnitude, zero otherwise. -/
def thresholdDiff (amount threshold d : ℝ) : ℝ :=
  if |d| > threshold then d * amount else 0

/-- `HighlightDetailProcessor::ComputeUnsharpMask`: thresholded, amplified difference
of original and blurred, per channel. -/
def ComputeUnsharpMask (original blurred : ImageR) (amount threshold : ℝ) : ImageR :=
  { width := original.width, height := original.height,
    color_space := original.color_space,
    pix := fun x y =>
      let o := original.pix x y
      let bl := blurred.pix x y
      ⟨thresholdDiff amount threshold (o.r - bl.r),
       thresholdDiff amount threshold (o.g - bl.g),
       thresholdDiff amount threshold (o.b - bl.b)⟩ }

/-- `HighlightDetailProcessor::ApplyUSM` (`src/core/highlight_detail.cpp`): highlight
mask, Gaussian blur (radius 2, σ = 1), thresholded unsharp difference (threshold
0.03, amount = intensity), composition `clamp01(original + detail * mask)`. -/
def ApplyUSM (input : ImageR) (pivot_threshold intensity : ℝ) : ImageR :=
  let highlight_mask := HighlightDetailUtils.ComputeHighlightMask input pivot_threshold
  let blurred := ApplyGaussianBlur input 2 1.0
  let detail_layer := ComputeUnsharpMask input blurred intensity 0.03
  { width := input.width, height := input.height, color_space := input.color_space,
    pix := fun x y =>
      let ip := input.pix x y
      let dp := detail_layer.pix x y
      let mask_value := highlight_mask.pix x y
      ⟨clampR (ip.r + dp.r * mask_value) 0 1,
       clampR (ip.g + dp.g * mask_value) 0 1,
       clampR (ip.b + dp.b * mask_value) 0 1⟩ }

/-- `HighlightDetailProcessor::ProcessFrame` (`src/core/highlight_detail.cpp`): fails
on an invalid input image; copies the input verbatim when the intensity is not
positive; otherwise applies the USM.  (The claims assume an initialized processor, so
the uninitialized early-return is not modelled.) -/
def ProcessFrame (P : CphParamsR) (input : ImageR) (pivot_threshold : ℝ) :
    Option ImageR :=
  if ¬ input.IsValid then none
  else if P.highlight_detail ≤ 0 then some input
  else some (ApplyUSM input pivot_threshold P.highlight_detail)

end HighlightDetailProcessor

namespace CphProcessor

/-- `CphProcessor::ApplyToneMappingToImage` (`unnamed/part_004`): tone-map the MaxRGB
luminance proxy of each pixel, scale the channels by the tone-mapped ratio and clamp to
`[0,1]`; black pixels are skipped.  The non-finite pixel guard is vacuous here. -/
def ApplyToneMappingToImage (P : CphParamsR) (img : ImageR) : ImageR :=
  { width := img.width, height := img.height, color_space := img.color_space,
    pix := fun x y =>
      let p := img.pix x y
      let max_rgb := max p.r (max p.g p.b)
      if max_rgb ≤ 0 then p
      else
        let mapped_luminance := ToneMapper.ApplyToneMapping P max_rgb
        let scale_factor := mapped_luminance / max_rgb
        ⟨clampR (p.r * scale_factor) 0 1, clampR (p.g * scale_factor) 0 1,
         clampR (p.b * scale_factor) 0 1⟩ }

/-- `CphProcessor::ApplySaturationProcessing` (`unnamed/part_004`): per pixel, OKLab
saturation called with the bundle's `sat_base` and `sat_hi` — `sat_hi` is passed
unscaled whether or not DCI compliance is enabled — followed by the two-stage gamut
processor in the working domain and a final clamp to `[0,1]`. -/
def ApplySaturationProcessing (P : CphParamsR) (img : ImageR) : ImageR :=
  { width := img.width, height := img.height, color_space := img.color_space,
    pix := fun x y =>
      let p := img.pix x y
      let x_luminance := clampR (max p.r (max p.g p.b)) 0 1
      let satd := ColorSpaceConverter.ApplySaturation p P.sat_base P.sat_hi
        P.pivot_pq x_luminance
      let gp := (ColorSpaceConverter.ApplyGamutProcessing satd .BT2020_PQ
        P.dci_compliance).1
      ⟨clampR gp.r 0 1, clampR gp.g 0 1, clampR gp.b 0 1⟩ }

/-- `CphProcessor::ProcessFrameInternal` (`unnamed/part_004`): working-domain
conversion, tone mapping, optional highlight detail (keeping the unenhanced image if
the detail processor fails), saturation plus gamut, then conversion to the input's
color space.  Statistics collection and the first-frame curve self-check mutate no
pixel data and are not modelled. -/
def ProcessFrameInternal (P : CphParamsR) (input : ImageF) : ImageR :=
  let working := ColorSpaceConverter.ToWorkingDomain input
  let toned := ApplyToneMappingToImage P working
  let detailed :=
    if P.highlight_detail > 0 then
      match HighlightDetailProcessor.ProcessFrame P toned P.pivot_pq with
      | some img => img
      | none => toned
    else toned
  let saturated := ApplySaturationProcessing P detailed
  ColorSpaceConverter.FromWorkingDomain saturated input.color_space

/-- Outcome of `CphProcessor::ProcessFrame`: an output frame, or the error code logged
on the failing validation path. -/
inductive ProcessResult
  | ok (out : ImageR)
  | err (code : ErrorCode)

/-- `CphProcessor::ProcessFrame` (`unnamed/part_004`): an uninitialized processor logs
`SCHEMA_MISSING`; an invalid input image — NaN/Inf data included — logs `NAN_INF` and
the frame is rejected before any processing happens; otherwise the internal pipeline
runs. -/
def ProcessFrame (initialized : Bool) (P : CphParamsR) (input : ImageF) :
    ProcessResult :=
  if initialized = false then .err .SCHEMA_MISSING
  else if input.IsValid = false then .err .NAN_INF
  else .ok (ProcessFrameInternal P input)

end CphProcessor

/-- A 1×1 BT2020_PQ frame whose single pixel has `R = NaN` (scenario S3 of the
specification). -/
def nanFrame : ImageF :=
  { width := 1, height := 1, color_space := .BT2020_PQ,
    pix := fun _ _ => ⟨Fp.nan, Fp.val 0.5, Fp.val 0.5⟩ }

/-- Every channel of every pixel inside `[0,1]`. -/
def ImageR.InUnitRange (img : ImageR) : Prop :=
  ∀ x y, 0 ≤ (img.pix x y).r ∧ (img.pix x y).r ≤ 1 ∧
    0 ≤ (img.pix x y).g ∧ (img.pix x y).g ≤ 1 ∧
    0 ≤ (img.pix x y).b ∧ (img.pix x y).b ≤ 1

/-- A constant 2×2 working-domain frame at value 0.1 (below the default pivot). -/
def constFrame : ImageR :=
  { width := 2, height := 2, color_space := .BT2020_PQ,
    pix := fun _ _ => ⟨0.1, 0.1, 0.1⟩ }

end

lemma val_clamp_inRange (x lo hi : ℚ) (h : lo ≤ hi) :
    ((Fp.val x).clampF lo hi).inRange lo hi = true := by
  simp only [Fp.clampF, Fp.inRange, Bool.and_eq_true, decide_eq_true_eq]
  constructor <;> split_ifs <;> linarith

lemma fixClamp_inRange (v : Fp) (mid lo hi : ℚ) (h : lo ≤ hi) :
    ((v.fixInvalid mid).clampF lo hi).inRange lo hi = true := by
  cases v <;> simp only [Fp.fixInvalid, Fp.isValid, if_true, if_false, Bool.false_eq_true,
    reduceIte] <;> exact val_clamp_inRange _ lo hi h

lemma fixClamp_isValid (v : Fp) (mid lo hi : ℚ) :
    ((v.fixInvalid mid).clampF lo hi).isValid = true := by
  cases v <;> simp [Fp.fixInvalid, Fp.isValid, Fp.clampF]

/-- The default bundle with an out-of-range finite pivot, the scenario of claim C7. -/
def badPivotParams : CphParams := { pivot_pq := Fp.val (-0.1) }

/-- C7 counterexample: the claim says `validate_and_correct` sets the finite
out-of-range `pivot_pq = -0.1` to the range midpoint `0.175`; the source instead
coordinate-clamps a finite value, yielding the range minimum `0.05` (the midpoint is
only used for non-finite values). -/
theorem C7_counterexample :
    (ValidateFloatRange (Fp.val (-0.1)) 0.05 0.30).value = Fp.val 0.05 ∧
    (CphParams.ClampToValidRange badPivotParams).pivot_pq = Fp.val 0.05 ∧
    Fp.val (0.05 : ℚ) ≠ Fp.val 0.175 := by
  refine ⟨?_, ?_, ?_⟩ <;>
    norm_num [ValidateFloatRange, CorrectParameter, Fp.isValid, Fp.toQ, Fp.clampF,
      badPivotParams, CphParams.ClampToValidRange, Fp.fixInvalid]

/-- C7 (amended): for the bundle whose only flaw is the finite `pivot_pq = -0.1`,
`ValidateAndCorrectParams` clamps the pivot to the range minimum `0.05`, reports that a
correction occurred, emits exactly `RANGE_PIVOT`, and the corrected bundle satisfies
`IsValid`; `ClampToValidRange` produces the same pivot. -/
theorem C7_pivot_corrected :
    (ValidateAndCorrectParams badPivotParams).1.pivot_pq = Fp.val 0.05 ∧
    (ValidateAndCorrectParams badPivotParams).2.1 = true ∧
    (ValidateAndCorrectParams badPivotParams).2.2 = [ErrorCode.RANGE_PIVOT] ∧
    (ValidateAndCorrectParams badPivotParams).1.IsValid = true ∧
    (CphParams.ClampToValidRange badPivotParams).pivot_pq = Fp.val 0.05 := by
  refine ⟨?_, ?_, ?_, ?_, ?_⟩ <;>
    norm_num [ValidateAndCorrectParams, ValidateFloatRange, CorrectParameter, Fp.isValid,
      Fp.toQ, Fp.clampF, Fp.fixInvalid, Fp.inRange, badPivotParams,
      CphParams.ClampToValidRange, CphParams.IsValid, List.filterMap]

/-- C9: the fallback selector maps every error code to the tier of the taxonomy:
`RANGE_PIVOT`/`RANGE_KNEE` to tier 1 (parameter correction), `SCHEMA_MISSING`,
`DET_MISMATCH`, `HL_FLICKER`, `DCI_BOUND`, `GAMUT_OOG` to tier 2 (standard fallback),
and `NAN_INF` to tier 3 (hard fallback). -/
theorem C9_fallback_tiers :
    DetermineFallbackStrategy .RANGE_PIVOT = .PARAMETER_CORRECTION ∧
    DetermineFallbackStrategy .RANGE_KNEE = .PARAMETER_CORRECTION ∧
    DetermineFallbackStrategy .SCHEMA_MISSING = .STANDARD_FALLBACK ∧
    DetermineFallbackStrategy .DET_MISMATCH = .STANDARD_FALLBACK ∧
    DetermineFallbackStrategy .HL_FLICKER = .STANDARD_FALLBACK ∧
    DetermineFallbackStrategy .DCI_BOUND = .STANDARD_FALLBACK ∧
    DetermineFallbackStrategy .GAMUT_OOG = .STANDARD_FALLBACK ∧
    DetermineFallbackStrategy .NAN_INF = .HARD_FALLBACK := by
  exact ⟨rfl, rfl, rfl, rfl, rfl, rfl, rfl, rfl⟩

/-- C10: for every parameter bundle, NaN, Inf and out-of-range fields included,
`ClampToValidRange` produces a bundle that `IsValid` accepts. -/
theorem C10_clampToValidRange_isValid (p : CphParams) :
    p.ClampToValidRange.IsValid = true := by
  simp only [CphParams.ClampToValidRange, CphParams.IsValid, Bool.and_eq_true]
  repeat' apply And.intro
  all_goals
    first
      | exact fixClamp_isValid _ _ _ _
      | exact fixClamp_inRange _ _ _ _ (by norm_num)
open ToneMapper

lemma clampR_mem {v lo hi : ℝ} (h : lo ≤ hi) : clampR v lo hi ∈ Set.Icc lo hi := by
  unfold clampR
  split_ifs with h1 h2 <;> constructor <;> linarith

lemma clampR_of_mem {v lo hi : ℝ} (h1 : lo ≤ v) (h2 : v ≤ hi) : clampR v lo hi = v := by
  unfold clampR
  rw [if_neg (by linarith), if_neg (by linarith)]

lemma clampR_mono {lo hi : ℝ} (h : lo ≤ hi) : Monotone (fun v => clampR v lo hi) := by
  intro y z hyz
  simp only [clampR]
  split_ifs <;> linarith

/-- Monotonicity of the rational compressor `n ↦ n/(1+α·n)` on nonnegative inputs. -/
lemma rationalCompress_mono {α n m : ℝ} (hα : 0 ≤ α) (hn : 0 ≤ n) (hnm : n ≤ m) :
    n / (1 + α * n) ≤ m / (1 + α * m) := by
  have hm : (0:ℝ) ≤ m := hn.trans hnm
  have h1 : (0:ℝ) < 1 + α * n := by positivity
  have h2 : (0:ℝ) < 1 + α * m := by positivity
  rw [div_le_div_iff h1 h2]
  nlinarith

/-- The soft knee never expands: its output is bounded by its input. -/
lemma softKnee_le_self (P : CphParamsR) (hk : P.yknee ≤ 0.99) (ha : 0 ≤ P.alpha) (y : ℝ) :
    ApplySoftKnee P y ≤ y := by
  simp only [ApplySoftKnee]
  split_ifs with h1 h2
  · exact le_refl y
  · linarith
  · have hme : (0:ℝ) < 1 - P.yknee := by linarith
    have hn : 0 ≤ (y - P.yknee) / (1 - P.yknee) := by
      apply div_nonneg _ hme.le
      linarith
    have hd : (0:ℝ) < 1 + P.alpha * ((y - P.yknee) / (1 - P.yknee)) := by positivity
    have key : (y - P.yknee) / (1 - P.yknee) / (1 + P.alpha * ((y - P.yknee) / (1 - P.yknee)))
        ≤ (y - P.yknee) / (1 - P.yknee) := by
      rw [div_le_iff hd]
      nlinarith [mul_nonneg ha (mul_nonneg hn hn)]
    have hc : (y - P.yknee) / (1 - P.yknee) * (1 - P.yknee) = y - P.yknee :=
      div_mul_cancel₀ _ (ne_of_gt hme)
    nlinarith

/-- For inputs at most 1 (normalized excess at most 1), the soft knee stays strictly
below 1. -/
lemma softKnee_lt_one (P : CphParamsR) (hk0 : 0.95 ≤ P.yknee) (hk : P.yknee ≤ 0.99)
    (ha : 0.2 ≤ P.alpha) (y : ℝ) (hy : y ≤ 1) : ApplySoftKnee P y < 1 := by
  simp only [ApplySoftKnee]
  split_ifs with h1 h2
  · linarith
  · linarith
  · have hme : (0:ℝ) < 1 - P.yknee := by linarith
    have hn0 : 0 < (y - P.yknee) / (1 - P.yknee) := by
      apply div_pos _ hme
      linarith
    have hn1 : (y - P.yknee) / (1 - P.yknee) ≤ 1 := by
      rw [div_le_one hme]; linarith
    have hd : (0:ℝ) < 1 + P.alpha * ((y - P.yknee) / (1 - P.yknee)) := by positivity
    have key : (y - P.yknee) / (1 - P.yknee) / (1 + P.alpha * ((y - P.yknee) / (1 - P.yknee)))
        < 1 := by
      rw [div_lt_one hd]
      nlinarith
    nlinarith

/-- The soft knee preserves monotonicity. -/
lemma softKnee_mono (P : CphParamsR) (hk0 : 0.95 ≤ P.yknee) (hk : P.yknee ≤ 0.99)
    (ha : 0 ≤ P.alpha) : Monotone (ApplySoftKnee P) := by
  intro y z hyz
  have hme : (0:ℝ) < 1 - P.yknee := by linarith
  simp only [ApplySoftKnee]
  split_ifs with h1 h2 h3 h4 h5 <;> try linarith
  · -- y below the knee, z above: the compressed value is at least the knee point
    have hn : 0 ≤ (z - P.yknee) / (1 - P.yknee) := by
      apply div_nonneg _ hme.le
      linarith
    have hd : (0:ℝ) < 1 + P.alpha * ((z - P.yknee) / (1 - P.yknee)) := by positivity
    have : 0 ≤ (z - P.yknee) / (1 - P.yknee) /
        (1 + P.alpha * ((z - P.yknee) / (1 - P.yknee))) := div_nonneg hn hd.le
    nlinarith
  · -- both above the knee
    have hny : 0 ≤ (y - P.yknee) / (1 - P.yknee) := by
      apply div_nonneg _ hme.le
      linarith
    have hstep : (y - P.yknee) / (1 - P.yknee) ≤ (z - P.yknee) / (1 - P.yknee) :=
      (div_le_div_right hme).mpr (by linarith)
    have := rationalCompress_mono ha hny hstep
    nlinarith

lemma softKnee_zero (P : CphParamsR) (h : 0 ≤ P.yknee) : ApplySoftKnee P 0 = 0 := by
  simp only [ApplySoftKnee]
  rw [if_pos h]

lemma toeClamp_zero (P : CphParamsR) : ApplyToeClamp P 0 = 0 := by
  simp only [ApplyToeClamp]
  rw [if_pos (Or.inr le_rfl)]

lemma applyPPR_zero (P : CphParamsR) (hp : 0.05 ≤ P.pivot_pq) : ApplyPPR P 0 = 0 := by
  simp only [ApplyPPR, PPRShadowSegment]
  rw [if_pos (show (0:ℝ) ≤ P.pivot_pq - P.pivot_pq * 0.1 by nlinarith),
    if_pos (le_refl (0:ℝ))]

lemma applyRLOG_zero (P : CphParamsR) (ht : 0.4 ≤ P.rlog_t) : ApplyRLOG P 0 = 0 := by
  simp only [ApplyRLOG, RLOGDarkSegment]
  rw [if_pos (show (0:ℝ) < P.rlog_t - 0.05 by linarith), if_pos (le_refl (0:ℝ))]

/-- C3 counterexample: with `yknee = 0.95` and `alpha = 0.2`, the soft-knee output at
the over-range input `y = 1.05` (normalized excess `n = 2`) is `143/140 > 1`, refuting
the claim that the output stays strictly below 1 for every `n`; the input is still
compressed (output below input). -/
theorem C3_counterexample :
    ¬ (ApplySoftKnee kneeCexParams (21/20) < 1) ∧
    ApplySoftKnee kneeCexParams (21/20) = 143/140 ∧
    ApplySoftKnee kneeCexParams (21/20) ≤ 21/20 := by
  have hval : ApplySoftKnee kneeCexParams (21/20) = 143/140 := by
    norm_num [ApplySoftKnee, kneeCexParams]
  refine ⟨?_, hval, ?_⟩ <;> rw [hval] <;> norm_num

/-- C3 (amended): for every `yknee ∈ [0.95, 0.99]` and `alpha ∈ [0.2, 1.0]` the
soft-knee only compresses (its output never exceeds its input), and its output stays
strictly below 1 for every input `y ≤ 1` (normalized excess `n ≤ 1`); for larger
inputs the output can reach 1 (see the counterexample). -/
theorem C3_softKnee_compresses (P : CphParamsR)
    (hk0 : 0.95 ≤ P.yknee) (hk1 : P.yknee ≤ 0.99)
    (ha0 : 0.2 ≤ P.alpha) (ha1 : P.alpha ≤ 1.0) :
    (∀ y, ApplySoftKnee P y ≤ y) ∧ (∀ y, y ≤ 1 → ApplySoftKnee P y < 1) := by
  constructor
  · exact fun y => softKnee_le_self P hk1 (by linarith) y
  · exact fun y hy => softKnee_lt_one P hk0 hk1 ha0 y hy

/-- Witness for C3 at the default bundle and input 0.98. -/
theorem C3_witness :
    ((0.95:ℝ) ≤ 0.97 ∧ (0.97:ℝ) ≤ 0.99 ∧ (0.2:ℝ) ≤ 0.6 ∧ (0.6:ℝ) ≤ 1.0) ∧
    ApplySoftKnee CphParamsR.defaults 0.98 ≤ 0.98 ∧
    ApplySoftKnee CphParamsR.defaults 0.98 < 1 := by
  have hd : CphParamsR.defaults.yknee = 0.97 ∧ CphParamsR.defaults.alpha = 0.6 := by
    constructor <;> rfl
  refine ⟨by norm_num, ?_, ?_⟩
  · exact (C3_softKnee_compresses CphParamsR.defaults (by rw [hd.1]; norm_num)
      (by rw [hd.1]; norm_num) (by rw [hd.2]; norm_num) (by rw [hd.2]; norm_num)).1 0.98
  · exact (C3_softKnee_compresses CphParamsR.defaults (by rw [hd.1]; norm_num)
      (by rw [hd.1]; norm_num) (by rw [hd.2]; norm_num) (by rw [hd.2]; norm_num)).2 0.98
      (by norm_num)

/-- C2: for every parameter bundle with all fields in range and every input in `[0,1]`,
the tone-mapping evaluator (curve, soft knee and toe clamp included) returns a value in
`[0,1]`, and it maps 0 to exactly 0. -/
theorem C2_apply_range_and_zero (P : CphParamsR) (hP : P.InRange) :
    (∀ x, 0 ≤ x → x ≤ 1 → 0 ≤ ApplyToneMapping P x ∧ ApplyToneMapping P x ≤ 1) ∧
    ApplyToneMapping P 0 = 0 := by
  obtain ⟨hp1, hp2, hgs1, hgs2, hgh1, hgh2, hsh1, hsh2, hbl1, hbl2, hhd1, hhd2,
    hsb1, hsb2, hshi1, hshi2, hra1, hra2, hrb1, hrb2, hrc1, hrc2, hrt1, hrt2,
    hyk1, hyk2, hal1, hal2, hto1, hto2⟩ := hP
  constructor
  · intro x _ _
    have := clampR_mem (v := ApplyToeClamp P (ApplySoftKnee P
      (if P.curve = .PPR then ApplyPPR P (clampR x 0 1) else ApplyRLOG P (clampR x 0 1))))
      (show (0:ℝ) ≤ 1 by norm_num)
    exact ⟨this.1, this.2⟩
  · have hx0 : clampR (0:ℝ) 0 1 = 0 := clampR_of_mem le_rfl zero_le_one
    simp only [ApplyToneMapping, hx0]
    rcases hcurve : P.curve with _ | _
    · rw [if_pos rfl, applyPPR_zero P hp1, softKnee_zero P (by linarith),
        toeClamp_zero P, hx0]
    · rw [if_neg (fun h => CurveType.noConfusion h),
        applyRLOG_zero P hrt1, softKnee_zero P (by linarith), toeClamp_zero P, hx0]

/-- Witness for C2 at the default bundle and input 1/2. -/
theorem C2_witness :
    CphParamsR.defaults.InRange ∧
    (0 ≤ ApplyToneMapping CphParamsR.defaults (1/2) ∧
      ApplyToneMapping CphParamsR.defaults (1/2) ≤ 1) ∧
    ApplyToneMapping CphParamsR.defaults 0 = 0 := by
  have hr : CphParamsR.defaults.InRange := by
    refine ⟨?_, ?_, ?_, ?_, ?_, ?_, ?_, ?_, ?_, ?_, ?_, ?_, ?_, ?_, ?_, ?_, ?_, ?_,
      ?_, ?_, ?_, ?_, ?_, ?_, ?_, ?_, ?_, ?_, ?_, ?_⟩ <;> norm_num [CphParamsR.defaults]
  refine ⟨hr, (C2_apply_range_and_zero CphParamsR.defaults hr).1 (1/2) (by norm_num)
    (by norm_num), (C2_apply_range_and_zero CphParamsR.defaults hr).2⟩

open ColorSpaceConverter in
lemma clampToGamut_inGamut (p : RGB) (cs : ColorSpace) :
    IsInGamut (ClampToGamut p cs) cs := by
  cases cs <;>
    simp only [ClampToGamut, IsInGamut] <;>
    refine ⟨?_, ?_, ?_, ?_, ?_, ?_⟩ <;>
    first
      | exact (clampR_mem (by norm_num)).1
      | exact (clampR_mem (by norm_num)).2

/-- C4: for every pixel, target color space and DCI flag, the two-stage gamut
processor returns a pixel inside the target gamut box — whether or not the perceptual
clamp's 10 iterations converged, the result passes through the final coordinate clamp
onto the box. -/
theorem C4_gamutProcessing_in_box (p : RGB) (cs : ColorSpace) (dci : Bool) :
    ColorSpaceConverter.IsInGamut
      (ColorSpaceConverter.ApplyGamutProcessing p cs dci).1 cs := by
  simp only [ColorSpaceConverter.ApplyGamutProcessing]
  exact clampToGamut_inGamut _ cs

/-- C5: on a frame with channels in `[0,1]`, the USM leaves every pixel whose MaxRGB
luminance is at or below the pivot exactly unchanged; and with zero intensity the
highlight-detail processor returns the input frame unchanged. -/
theorem C5_usm_identity :
    (∀ (img : ImageR) (pivot intensity : ℝ) (x y : ℕ), img.InUnitRange →
      max (img.pix x y).r (max (img.pix x y).g (img.pix x y).b) ≤ pivot →
      (HighlightDetailProcessor.ApplyUSM img pivot intensity).pix x y = img.pix x y) ∧
    (∀ (P : CphParamsR) (img : ImageR) (pivot : ℝ), P.highlight_detail = 0 →
      img.IsValid →
      HighlightDetailProcessor.ProcessFrame P img pivot = some img) := by
  constructor
  · intro img pivot intensity x y hin hlum
    obtain ⟨hr0, hr1, hg0, hg1, hb0, hb1⟩ := hin x y
    have hmask : (HighlightDetailUtils.ComputeHighlightMask img pivot).pix x y = 0 := by
      simp only [HighlightDetailUtils.ComputeHighlightMask]
      rw [if_neg (not_lt_of_le hlum)]
    simp only [HighlightDetailProcessor.ApplyUSM, hmask, mul_zero, add_zero]
    rw [clampR_of_mem hr0 hr1, clampR_of_mem hg0 hg1, clampR_of_mem hb0 hb1]
  · intro P img pivot hhd hv
    simp only [HighlightDetailProcessor.ProcessFrame]
    rw [if_neg (not_not_intro hv), if_pos (le_of_eq hhd)]

/-- Witness for C5: the constant 0.1 frame, default pivot 0.18, at pixel (0,0); and the
zero-intensity bundle on the same frame. -/
theorem C5_witness :
    (constFrame.InUnitRange ∧
      max (constFrame.pix 0 0).r (max (constFrame.pix 0 0).g (constFrame.pix 0 0).b)
        ≤ 0.18 ∧
      (HighlightDetailProcessor.ApplyUSM constFrame 0.18 0.4).pix 0 0 =
        constFrame.pix 0 0) ∧
    (HighlightDetailProcessor.ProcessFrame { highlight_detail := 0 } constFrame 0.18 =
      some constFrame) := by
  have hin : constFrame.InUnitRange := by
    intro x y
    refine ⟨?_, ?_, ?_, ?_, ?_, ?_⟩ <;> norm_num [constFrame]
  have hlum : max (constFrame.pix 0 0).r
      (max (constFrame.pix 0 0).g (constFrame.pix 0 0).b) ≤ 0.18 := by
    norm_num [constFrame]
  refine ⟨⟨hin, hlum, C5_usm_identity.1 constFrame 0.18 0.4 0 0 hin hlum⟩, ?_⟩
  exact C5_usm_identity.2 { highlight_detail := 0 } constFrame 0.18 rfl
    ⟨by norm_num [constFrame], by norm_num [constFrame]⟩

/-- C6 (code evidence): the highlight-saturation step applies the `sat_hi` factor it
is handed.  The pipeline (`ApplySaturationProcessing`) hands it `params.sat_hi`
unscaled whether or not `dci_compliance` is set — no 0.925 trim exists anywhere in the
source — and on the OKLab value `(0.5, 0.2, 0.1)` with weight 1 the untrimmed factor
0.95 yields chroma `a = 0.19`, while the trim the specification prescribes
(`0.925 * 0.95`) would yield `a = 0.17575 ≠ 0.19`. -/
theorem C6_dci_satHi_untrimmed :
    ColorSpaceConverter.ApplyHighlightSaturation ⟨0.5, 0.2, 0.1⟩ 0.95 1 =
      ⟨0.5, 0.19, 0.095⟩ ∧
    ColorSpaceConverter.ApplyHighlightSaturation ⟨0.5, 0.2, 0.1⟩ (0.925 * 0.95) 1 =
      ⟨0.5, 0.17575, 0.0878750⟩ ∧
    (0.19 : ℝ) ≠ 0.17575 := by
  have hc1 : clampR (0.95 : ℝ) 0 2 = 0.95 := clampR_of_mem (by norm_num) (by norm_num)
  have hc2 : clampR (0.925 * 0.95 : ℝ) 0 2 = 0.925 * 0.95 :=
    clampR_of_mem (by norm_num) (by norm_num)
  have hc3 : clampR (1 : ℝ) 0 1 = 1 := clampR_of_mem (by norm_num) (by norm_num)
  refine ⟨?_, ?_, by norm_num⟩ <;>
    simp only [ColorSpaceConverter.ApplyHighlightSaturation, NumericalUtils.Mix,
      hc1, hc2, hc3] <;>
    norm_num

/-- C8 counterexample: a frame containing a NaN pixel is rejected by
`CphProcessor::ProcessFrame` at input validation with `NAN_INF` — the pipeline never
reaches the working-domain converter for such a frame, contradicting the claim that
the pipeline completes without raising `NAN_INF`. -/
theorem C8_counterexample :
    CphProcessor.ProcessFrame true CphParamsR.defaults nanFrame =
      CphProcessor.ProcessResult.err ErrorCode.NAN_INF := rfl

/-- C8 (amended): the working-domain converter itself replaces every non-finite pixel
with black `(0,0,0)` (so a directly converted frame carries only finite values
downstream), but `CphProcessor::ProcessFrame` rejects a frame containing NaN during
input validation, emitting `NAN_INF` and producing no output frame. -/
theorem C8_nan_pixel_to_black :
    (∀ (input : ImageF) (x y : ℕ), (input.pix x y).isFiniteRGB = false →
      (ColorSpaceConverter.ToWorkingDomain input).pix x y = ⟨0, 0, 0⟩) ∧
    CphProcessor.ProcessFrame true CphParamsR.defaults nanFrame =
      CphProcessor.ProcessResult.err ErrorCode.NAN_INF := by
  constructor
  · intro input x y h
    simp only [ColorSpaceConverter.ToWorkingDomain]
    rw [if_pos h]
  · rfl

/-- Witness for C8 at the NaN frame's single pixel. -/
theorem C8_witness :
    (nanFrame.pix 0 0).isFiniteRGB = false ∧
    (ColorSpaceConverter.ToWorkingDomain nanFrame).pix 0 0 = ⟨0, 0, 0⟩ :=
  ⟨rfl, C8_nan_pixel_to_black.1 nanFrame 0 0 rfl⟩

/-- Padé lower bound for the logarithm. -/
lemma pade_le_log {z : ℝ} (hz : 0 ≤ z) : 2 * z / (2 + z) ≤ Real.log (1 + z) := by
  have hderiv : ∀ w ∈ Set.Ici (0:ℝ),
      HasDerivAt (fun z => Real.log (1 + z) - 2 * z / (2 + z))
        (1 / (1 + w) - 4 / (2 + w) ^ 2) w := by
    intro w hw
    have hw0 : (0:ℝ) ≤ w := hw
    have h1 : (1 + w) ≠ 0 := by positivity
    have h2 : (2 + w) ≠ 0 := by positivity
    have hlin : HasDerivAt (fun z : ℝ => 1 + z) 1 w := by
      simpa using (hasDerivAt_id w).const_add 1
    have hlog : HasDerivAt (fun z : ℝ => Real.log (1 + z)) (1 / (1 + w)) w := by
      simpa [one_div] using (Real.hasDerivAt_log h1).comp w hlin
    have hnum : HasDerivAt (fun z : ℝ => 2 * z) 2 w := by
      simpa using (hasDerivAt_id w).const_mul 2
    have hden : HasDerivAt (fun z : ℝ => 2 + z) 1 w := by
      simpa using (hasDerivAt_id w).const_add 2
    have hq : HasDerivAt (fun z : ℝ => 2 * z / (2 + z))
        ((2 * (2 + w) - 2 * w * 1) / (2 + w) ^ 2) w := hnum.div hden h2
    have heq : (2 * (2 + w) - 2 * w * 1) / (2 + w) ^ 2 = 4 / (2 + w) ^ 2 := by ring_nf
    rw [heq] at hq
    exact hlog.sub hq
  have hmono : MonotoneOn (fun z => Real.log (1 + z) - 2 * z / (2 + z))
      (Set.Ici (0:ℝ)) := by
    apply monotoneOn_of_deriv_nonneg (convex_Ici 0)
    · intro w hw
      exact (hderiv w hw).continuousAt.continuousWithinAt
    · intro w hw
      rw [interior_Ici] at hw
      exact (hderiv w (le_of_lt hw)).differentiableAt.differentiableWithinAt
    · intro w hw
      rw [interior_Ici] at hw
      have hw0 : (0:ℝ) < w := hw
      rw [(hderiv w hw0.le).deriv]
      have h1 : (0:ℝ) < 1 + w := by linarith
      have h2 : (0:ℝ) < (2 + w) ^ 2 := by positivity
      rw [sub_nonneg, div_le_div_iff h2 h1]
      nlinarith [sq_nonneg w]
  have h0 : (fun z => Real.log (1 + z) - 2 * z / (2 + z)) 0 = 0 := by simp
  have := hmono (Set.mem_Ici.mpr le_rfl) (Set.mem_Ici.mpr hz) hz
  rw [h0] at this
  linarith [this]

/-- Square-root upper bound for the logarithm. -/
lemma log_le_div_sqrt {z : ℝ} (hz : 0 ≤ z) : Real.log (1 + z) ≤ z / Real.sqrt (1 + z) := by
  have h1z : (0:ℝ) < 1 + z := by linarith
  set v := Real.sqrt (1 + z) with hv
  have hv1 : 1 ≤ v := by
    have h := Real.sqrt_le_sqrt (show (1:ℝ) ≤ 1 + z by linarith)
    rwa [Real.sqrt_one] at h
  have hv0 : (0:ℝ) < v := by linarith
  have hvsq : v * v = 1 + z := Real.mul_self_sqrt h1z.le
  -- v - 1/v - 2 log v is nonnegative for v ≥ 1
  have hderiv : ∀ w ∈ Set.Ici (1:ℝ),
      HasDerivAt (fun v : ℝ => v - v⁻¹ - 2 * Real.log v)
        (1 - (-(w ^ 2)⁻¹) - 2 * w⁻¹) w := by
    intro w hw
    have hw0 : w ≠ 0 := by
      have : (1:ℝ) ≤ w := hw
      positivity
    have hid : HasDerivAt (fun v : ℝ => v) 1 w := hasDerivAt_id w
    have hinv : HasDerivAt (fun v : ℝ => v⁻¹) (-(w ^ 2)⁻¹) w := hasDerivAt_inv hw0
    have hlog : HasDerivAt (fun v : ℝ => 2 * Real.log v) (2 * w⁻¹) w := by
      simpa [one_div] using (Real.hasDerivAt_log hw0).const_mul 2
    exact (hid.sub hinv).sub hlog
  have hmono : MonotoneOn (fun v : ℝ => v - v⁻¹ - 2 * Real.log v) (Set.Ici (1:ℝ)) := by
    apply monotoneOn_of_deriv_nonneg (convex_Ici 1)
    · intro w hw
      exact (hderiv w hw).continuousAt.continuousWithinAt
    · intro w hw
      rw [interior_Ici] at hw
      exact (hderiv w (le_of_lt hw)).differentiableAt.differentiableWithinAt
    · intro w hw
      rw [interior_Ici] at hw
      have hw1 : (1:ℝ) < w := hw
      have hw0 : (0:ℝ) < w := by linarith
      rw [(hderiv w hw1.le).deriv]
      have hinv_le : w⁻¹ ≤ 1 := inv_le_one_of_one_le₀ (by linarith)
      have h2 : (0:ℝ) < w ^ 2 := by positivity
      have key : 1 + (w ^ 2)⁻¹ - 2 * w⁻¹ = (1 - w⁻¹) ^ 2 := by
        field_simp
        ring
      nlinarith [sq_nonneg (1 - w⁻¹), key]
  have h0 : (fun v : ℝ => v - v⁻¹ - 2 * Real.log v) 1 = 0 := by simp
  have hm := hmono (Set.mem_Ici.mpr le_rfl) (Set.mem_Ici.mpr hv1) hv1
  rw [h0] at hm
  -- so 2 log v ≤ v - 1/v = (v² - 1)/v = z/v
  have hlogv : Real.log (1 + z) = 2 * Real.log v := by
    rw [← hvsq, Real.log_mul hv0.ne' hv0.ne']
    ring
  have : 2 * Real.log v ≤ v - v⁻¹ := by
    simpa using hm
  rw [hlogv]
  have hzv : z / v = v - v⁻¹ := by
    field_simp
    nlinarith [hvsq]
  rw [hzv]
  exact this

/-- Cleared polynomial inequality behind rate fact 2. -/
lemma rlogWinCleared2 {a c t : ℝ} (ha : 1 ≤ a) (ha' : a ≤ 16) (hc : 1/2 ≤ c) (hc' : c ≤ 3)
    (ht : 2/5 ≤ t) (ht' : t ≤ 7/10) :
    (2 + a*t) * (1 + c*(t + 1/20))^2 ≤ 8 * (1 + c*t) * (1 + a*(t - 1/20)) := by
  have hz : 2/5 ≤ a*t := by nlinarith
  have hz' : a*t ≤ 56/5 := by nlinarith
  have hd : 1/5 ≤ c*t := by nlinarith
  have hd' : c*t ≤ 21/10 := by nlinarith
  have hB : 1 + c*(t + 1/20) ≤ 1 + (9/8)*(c*t) := by nlinarith [mul_nonneg (by linarith : (0:ℝ) ≤ c) (by linarith : (0:ℝ) ≤ 5*t - 2)]
  have hA : 1 + (7/8)*(a*t) ≤ 1 + a*(t - 1/20) := by nlinarith [mul_nonneg (by linarith : (0:ℝ) ≤ a) (by linarith : (0:ℝ) ≤ 5*t - 2)]
  have hBpos : (0:ℝ) ≤ 1 + c*(t + 1/20) := by nlinarith
  have step1 : (1 + c*(t + 1/20))^2 ≤ (1 + (9/8)*(c*t))^2 :=
    pow_le_pow_left hBpos hB 2
  have step3 : (1 + (9/8)*(c*t))^2 ≤ (9/2)*(1 + c*t) := by
    nlinarith [mul_nonneg (by linarith : (0:ℝ) ≤ 21/10 - c*t) (by linarith : (0:ℝ) ≤ c*t - 1/5)]
  have step2 : 2 + a*t ≤ (16/9)*(1 + (7/8)*(a*t)) := by linarith
  calc (2 + a*t) * (1 + c*(t + 1/20))^2
      ≤ (2 + a*t) * ((9/2)*(1 + c*t)) := by
        apply mul_le_mul_of_nonneg_left (step1.trans step3) (by linarith)
    _ ≤ ((16/9)*(1 + (7/8)*(a*t))) * ((9/2)*(1 + c*t)) := by
        apply mul_le_mul_of_nonneg_right step2 (by linarith)
    _ = 8 * (1 + c*t) * (1 + (7/8)*(a*t)) := by ring
    _ ≤ 8 * (1 + c*t) * (1 + a*(t - 1/20)) := by
        apply mul_le_mul_of_nonneg_left hA (by nlinarith)

/-- Cleared inequality behind rate fact 3, with the square root of the log argument. -/
lemma rlogWinCleared3 {a c t : ℝ} (ha : 1 ≤ a) (ha' : a ≤ 16) (hc : 1/2 ≤ c) (hc' : c ≤ 3)
    (ht : 2/5 ≤ t) (ht' : t ≤ 7/10) :
    (1 + c*t) * (1 + a*(t + 1/20)) ≤
      4 * Real.sqrt (1 + a*t) * (1 + c*(t - 1/20))^2 := by
  have hz : 2/5 ≤ a*t := by nlinarith
  have hz' : a*t ≤ 56/5 := by nlinarith
  have hd : 1/5 ≤ c*t := by nlinarith
  have hd' : c*t ≤ 21/10 := by nlinarith
  have hBm : 1 + (7/8)*(c*t) ≤ 1 + c*(t - 1/20) := by
    nlinarith [mul_nonneg (by linarith : (0:ℝ) ≤ c) (by linarith : (0:ℝ) ≤ 5*t - 2)]
  have hAp : 1 + a*(t + 1/20) ≤ 1 + (9/8)*(a*t) := by
    nlinarith [mul_nonneg (by linarith : (0:ℝ) ≤ a) (by linarith : (0:ℝ) ≤ 5*t - 2)]
  have hsq : (1 + c*t) ≤ (1 + (7/8)*(c*t))^2 := by nlinarith [sq_nonneg (c*t)]
  have hs : 1 + (9/8)*(a*t) ≤ 4 * Real.sqrt (1 + a*t) := by
    have h4 : (0:ℝ) < 4 := by norm_num
    rw [show (4:ℝ) * Real.sqrt (1 + a*t) = Real.sqrt (16 * (1 + a*t)) by
      rw [show (16:ℝ) * (1 + a*t) = 4^2 * (1 + a*t) by ring, Real.sqrt_mul (by positivity),
        Real.sqrt_sq (by norm_num)]]
    rw [show (1 + (9/8)*(a*t) : ℝ) = Real.sqrt ((1 + (9/8)*(a*t))^2) by
      rw [Real.sqrt_sq (by nlinarith)]]
    apply Real.sqrt_le_sqrt
    nlinarith [mul_nonneg (by linarith : (0:ℝ) ≤ 56/5 - a*t) (by linarith : (0:ℝ) ≤ a*t - 2/5)]
  have hBm2 : (1 + (7/8)*(c*t))^2 ≤ (1 + c*(t - 1/20))^2 := by
    apply pow_le_pow_left (by nlinarith) hBm 2
  calc (1 + c*t) * (1 + a*(t + 1/20))
      ≤ (1 + (7/8)*(c*t))^2 * (4 * Real.sqrt (1 + a*t)) := by
        apply mul_le_mul (hsq.trans (le_refl _)) (hAp.trans hs) (by nlinarith) (by nlinarith)
    _ ≤ (1 + c*(t - 1/20))^2 * (4 * Real.sqrt (1 + a*t)) := by
        apply mul_le_mul_of_nonneg_right hBm2 (by positivity)
    _ = 4 * Real.sqrt (1 + a*t) * (1 + c*(t - 1/20))^2 := by ring

lemma smoothW_hasDeriv (t x : ℝ) :
    HasDerivAt (smoothW t) (600*(x - t + 1/20) - 6000*(x - t + 1/20)^2) x := by
  have hpoly : smoothW t = fun x => 300*(x - t + 1/20)^2 - 2000*(x - t + 1/20)^3 := by
    funext y
    simp only [smoothW]
    ring
  rw [hpoly]
  have hv : HasDerivAt (fun x : ℝ => x - t + 1/20) 1 x := by
    simpa using ((hasDerivAt_id x).sub_const t).add_const (1/20)
  have h2 : HasDerivAt (fun x : ℝ => 300*(x - t + 1/20)^2)
      (300*(2*(x - t + 1/20)^1 * 1)) x := (hv.pow 2).const_mul 300
  have h3 : HasDerivAt (fun x : ℝ => 2000*(x - t + 1/20)^3)
      (2000*(3*(x - t + 1/20)^2 * 1)) x := (hv.pow 3).const_mul 2000
  have := h2.sub h3
  convert this using 1
  ring

lemma smoothW_mem (t x : ℝ) (hx : x ∈ Set.Icc (t - 1/20) (t + 1/20)) :
    smoothW t x ∈ Set.Icc (0:ℝ) 1 := by
  obtain ⟨h1, h2⟩ := hx
  have hu0 : 0 ≤ (x - t + 1/20) * 10 := by linarith
  have hu1 : (x - t + 1/20) * 10 ≤ 1 := by linarith
  constructor
  · simp only [smoothW]
    nlinarith
  · simp only [smoothW]
    nlinarith [sq_nonneg ((x - t + 1/20) * 10 - 1), sq_nonneg ((x - t + 1/20) * 10)]

lemma smoothW_deriv_nonneg (t x : ℝ) (hx : x ∈ Set.Icc (t - 1/20) (t + 1/20)) :
    0 ≤ 600*(x - t + 1/20) - 6000*(x - t + 1/20)^2 := by
  obtain ⟨h1, h2⟩ := hx
  nlinarith [mul_nonneg (by linarith : (0:ℝ) ≤ x - t + 1/20)
    (by linarith : (0:ℝ) ≤ 1/10 - (x - t + 1/20))]

lemma smoothW_deriv_dist (t x : ℝ) (hx : x ∈ Set.Icc (t - 1/20) (t + 1/20)) :
    (600*(x - t + 1/20) - 6000*(x - t + 1/20)^2) * |x - t| ≤ 1/3 := by
  obtain ⟨h1, h2⟩ := hx
  rcases le_total x t with hle | hge
  · rw [abs_of_nonpos (by linarith)]
    nlinarith [sq_nonneg (10*(x - t + 1/20) - 21/100),
      mul_nonneg (by linarith : (0:ℝ) ≤ x - t + 1/20) (by linarith : (0:ℝ) ≤ t - x),
      sq_nonneg (x - t + 1/20)]
  · rw [abs_of_nonneg (by linarith)]
    nlinarith [sq_nonneg (10*(x - t + 1/20) - 79/100),
      mul_nonneg (by linarith : (0:ℝ) ≤ x - t)
        (by linarith : (0:ℝ) ≤ 1/10 - (x - t + 1/20)),
      sq_nonneg (1/10 - (x - t + 1/20))]

/-- Rate fact 1: the fastest dark-segment slope on the window is at most three times
the slowest one. -/
lemma rlogRate1 {a t : ℝ} (ha : 1 ≤ a) (ha' : a ≤ 16) (ht : 2/5 ≤ t) (ht' : t ≤ 7/10) :
    a / ((1 + a*(t - 1/20)) * Real.log (1 + a)) ≤
      3 * (a / ((1 + a*(t + 1/20)) * Real.log (1 + a))) := by
  have hL : 0 < Real.log (1 + a) := Real.log_pos (by linarith)
  have hA1 : (0:ℝ) < 1 + a*(t - 1/20) := by nlinarith
  have hA2 : (0:ℝ) < 1 + a*(t + 1/20) := by nlinarith
  rw [show 3 * (a / ((1 + a*(t + 1/20)) * Real.log (1 + a)))
      = 3*a / ((1 + a*(t + 1/20)) * Real.log (1 + a)) by ring]
  rw [div_le_div_iff (by positivity) (by positivity)]
  have key : 1 + a*(t + 1/20) ≤ 3 * (1 + a*(t - 1/20)) := by
    nlinarith [mul_nonneg (by linarith : (0:ℝ) ≤ a) (by linarith : (0:ℝ) ≤ 5*t - 2)]
  nlinarith [mul_pos hA1 hL, mul_le_mul_of_nonneg_left key
    (by positivity : (0:ℝ) ≤ a * Real.log (1 + a))]

/-- Rate fact 4: the fastest highlight-segment slope on the window is at most four
times the slowest one. -/
lemma rlogRate4 {K c t : ℝ} (hK : 0 ≤ K) (hc : 1/2 ≤ c) (hc' : c ≤ 3)
    (ht : 2/5 ≤ t) (ht' : t ≤ 7/10) :
    K / (1 + c*(t - 1/20))^2 ≤ 4 * (K / (1 + c*(t + 1/20))^2) := by
  have hB1 : (0:ℝ) < 1 + c*(t - 1/20) := by nlinarith
  have hB2 : (0:ℝ) < 1 + c*(t + 1/20) := by nlinarith
  rw [show 4 * (K / (1 + c*(t + 1/20))^2) = 4*K / (1 + c*(t + 1/20))^2 by ring]
  rw [div_le_div_iff (by positivity) (by positivity)]
  have key : 1 + c*(t + 1/20) ≤ 2 * (1 + c*(t - 1/20)) := by nlinarith
  nlinarith [mul_le_mul_of_nonneg_left (mul_le_mul key key (by positivity) (by positivity))
    hK, sq_nonneg (1 + c*(t - 1/20))]

/-- Rate fact 2: the fastest dark slope is at most four times the slowest highlight
slope (via the Padé lower bound on the logarithm). -/
lemma rlogRate2 {a c t : ℝ} (ha : 1 ≤ a) (ha' : a ≤ 16) (hc : 1/2 ≤ c) (hc' : c ≤ 3)
    (ht : 2/5 ≤ t) (ht' : t ≤ 7/10) :
    a / ((1 + a*(t - 1/20)) * Real.log (1 + a)) ≤
      4 * (Real.log (1 + a*t) * (1 + c*t) / (t * Real.log (1 + a)) /
        (1 + c*(t + 1/20))^2) := by
  have hL : 0 < Real.log (1 + a) := Real.log_pos (by linarith)
  have hat : (0:ℝ) < a*t := by nlinarith
  have hA1 : (0:ℝ) < 1 + a*(t - 1/20) := by nlinarith
  have hB2 : (0:ℝ) < 1 + c*(t + 1/20) := by nlinarith
  have htpos : (0:ℝ) < t := by linarith
  have hct : (0:ℝ) < 1 + c*t := by nlinarith
  have hpade := pade_le_log hat.le
  rw [div_div, show 4 * (Real.log (1 + a*t) * (1 + c*t) / (t * Real.log (1 + a) *
      (1 + c*(t + 1/20))^2)) = 4 * Real.log (1 + a*t) * (1 + c*t) /
      (t * Real.log (1 + a) * (1 + c*(t + 1/20))^2) by ring]
  rw [div_le_div_iff (by positivity) (by positivity)]
  -- clears to: a * (t * L * B₊²) ≤ 4Λ(1+ct) * (A₋ * L); cancel L and use the
  -- polynomial bound together with the Padé estimate
  have hcl := rlogWinCleared2 ha ha' hc hc' ht ht'
  have hstep : a * t * (1 + c*(t + 1/20))^2 ≤
      4 * Real.log (1 + a*t) * ((1 + c*t) * (1 + a*(t - 1/20))) := by
    have h1 : a * t * (1 + c*(t + 1/20))^2 ≤
        (2*(a*t)/(2 + a*t)) * (4 * ((1 + c*t) * (1 + a*(t - 1/20)))) := by
      rw [div_mul_eq_mul_div, le_div_iff (by positivity)]
      nlinarith [mul_le_mul_of_nonneg_left hcl (le_of_lt hat)]
    refine h1.trans ?_
    have h2 : 2*(a*t)/(2 + a*t) ≤ Real.log (1 + a*t) := hpade
    have h3 : (0:ℝ) ≤ 4 * ((1 + c*t) * (1 + a*(t - 1/20))) := by positivity
    nlinarith [mul_le_mul_of_nonneg_right h2 h3]
  calc a * (t * Real.log (1 + a) * (1 + c*(t + 1/20))^2)
      = (a * t * (1 + c*(t + 1/20))^2) * Real.log (1 + a) := by ring
    _ ≤ (4 * Real.log (1 + a*t) * ((1 + c*t) * (1 + a*(t - 1/20)))) * Real.log (1 + a) := by
        apply mul_le_mul_of_nonneg_right hstep hL.le
    _ = 4 * Real.log (1 + a*t) * (1 + c*t) * ((1 + a*(t - 1/20)) * Real.log (1 + a)) := by
        ring

/-- Rate fact 3: the fastest highlight slope is at most four times the slowest dark
slope (via the square-root upper bound on the logarithm). -/
lemma rlogRate3 {a c t : ℝ} (ha : 1 ≤ a) (ha' : a ≤ 16) (hc : 1/2 ≤ c) (hc' : c ≤ 3)
    (ht : 2/5 ≤ t) (ht' : t ≤ 7/10) :
    Real.log (1 + a*t) * (1 + c*t) / (t * Real.log (1 + a)) / (1 + c*(t - 1/20))^2 ≤
      4 * (a / ((1 + a*(t + 1/20)) * Real.log (1 + a))) := by
  have hL : 0 < Real.log (1 + a) := Real.log_pos (by linarith)
  have hat : (0:ℝ) < a*t := by nlinarith
  have hA2 : (0:ℝ) < 1 + a*(t + 1/20) := by nlinarith
  have hB1 : (0:ℝ) < 1 + c*(t - 1/20) := by nlinarith
  have htpos : (0:ℝ) < t := by linarith
  have hct : (0:ℝ) < 1 + c*t := by nlinarith
  have hs : (0:ℝ) < Real.sqrt (1 + a*t) := Real.sqrt_pos.mpr (by linarith)
  have hΛ := log_le_div_sqrt hat.le
  rw [div_div, show 4 * (a / ((1 + a*(t + 1/20)) * Real.log (1 + a)))
      = 4*a / ((1 + a*(t + 1/20)) * Real.log (1 + a)) by ring]
  rw [div_le_div_iff (by positivity) (by positivity)]
  -- clears to: Λ(1+ct) * (A₊ * L) ≤ 4a * (t * L * B₋²); cancel L, use Λ ≤ z/√(1+z)
  have hcl := rlogWinCleared3 ha ha' hc hc' ht ht'
  have hstep : Real.log (1 + a*t) * (1 + c*t) * (1 + a*(t + 1/20)) ≤
      4 * a * (t * (1 + c*(t - 1/20))^2) := by
    have h1 : Real.log (1 + a*t) * (1 + c*t) * (1 + a*(t + 1/20)) ≤
        (a*t / Real.sqrt (1 + a*t)) * ((1 + c*t) * (1 + a*(t + 1/20))) := by
      have := mul_le_mul_of_nonneg_right hΛ
        (by positivity : (0:ℝ) ≤ (1 + c*t) * (1 + a*(t + 1/20)))
      calc Real.log (1 + a*t) * (1 + c*t) * (1 + a*(t + 1/20))
          = Real.log (1 + a*t) * ((1 + c*t) * (1 + a*(t + 1/20))) := by ring
        _ ≤ (a*t / Real.sqrt (1 + a*t)) * ((1 + c*t) * (1 + a*(t + 1/20))) := this
    refine h1.trans ?_
    rw [div_mul_eq_mul_div, div_le_iff hs]
    calc a*t * ((1 + c*t) * (1 + a*(t + 1/20)))
        ≤ a*t * (4 * Real.sqrt (1 + a*t) * (1 + c*(t - 1/20))^2) := by
          apply mul_le_mul_of_nonneg_left hcl (by positivity)
      _ = 4 * a * (t * (1 + c*(t - 1/20))^2) * Real.sqrt (1 + a*t) := by ring
  calc Real.log (1 + a*t) * (1 + c*t) * ((1 + a*(t + 1/20)) * Real.log (1 + a))
      = (Real.log (1 + a*t) * (1 + c*t) * (1 + a*(t + 1/20))) * Real.log (1 + a) := by ring
    _ ≤ (4 * a * (t * (1 + c*(t - 1/20))^2)) * Real.log (1 + a) := by
        apply mul_le_mul_of_nonneg_right hstep hL.le
    _ = 4*a * (t * Real.log (1 + a) * (1 + c*(t - 1/20))^2) := by ring


/-- Combining the four rate facts: a third of the slope-difference bound is dominated
by the slowest slope. -/
lemma rateCombine {L1 L2 U1 U2 : ℝ} (hL1 : 0 ≤ L1) (hL2 : 0 ≤ L2)
    (h1 : U1 ≤ 3*L1) (h2 : U1 ≤ 4*L2) (h3 : U2 ≤ 4*L1) (h4 : U2 ≤ 4*L2) :
    (1/3) * max (U1 - L2) (U2 - L1) ≤ min L1 L2 := by
  rcases max_cases (U1 - L2) (U2 - L1) with ⟨hm, _⟩ | ⟨hm, _⟩ <;>
    rcases min_cases L1 L2 with ⟨hn, hord⟩ | ⟨hn, hord⟩ <;> rw [hm, hn] <;> linarith

/-- Denominator monotonicity for a nonnegative numerator. -/
lemma div_denom_anti {n d1 d2 : ℝ} (hn : 0 ≤ n) (h1 : 0 < d1) (h12 : d1 ≤ d2) :
    n / d2 ≤ n / d1 := by
  have h2 : 0 < d2 := lt_of_lt_of_le h1 h12
  rw [div_le_div_iff h2 h1]
  nlinarith [mul_le_mul_of_nonneg_left h12 hn]

/-- Derivative of the normalized logarithmic segment. -/
lemma rlogDark_hasDeriv (a L x : ℝ) (hx : 1 + a*x ≠ 0) :
    HasDerivAt (fun y => Real.log (1 + a*y) / L) (a / ((1 + a*x) * L)) x := by
  have hlin : HasDerivAt (fun y : ℝ => 1 + a*y) a x := by
    simpa using ((hasDerivAt_id x).const_mul a).const_add 1
  have hlog : HasDerivAt (fun y : ℝ => Real.log (1 + a*y)) ((1 + a*x)⁻¹ * a) x :=
    (Real.hasDerivAt_log hx).comp x hlin
  have := hlog.div_const L
  convert this using 1
  rw [inv_mul_eq_div, div_div]

/-- Derivative of the rescaled rational segment. -/
lemma rlogHigh_hasDeriv (K c x : ℝ) (hx : 1 + c*x ≠ 0) :
    HasDerivAt (fun y => K * y / (1 + c*y)) (K / (1 + c*x)^2) x := by
  have hnum : HasDerivAt (fun y : ℝ => K * y) K x := by
    simpa using (hasDerivAt_id x).const_mul K
  have hden : HasDerivAt (fun y : ℝ => 1 + c*y) c x := by
    simpa using ((hasDerivAt_id x).const_mul c).const_add 1
  have hq := hnum.div hden hx
  convert hq using 1
  rw [show K * (1 + c*x) - K * x * c = K by ring]

set_option maxHeartbeats 1000000 in
/-- Monotonicity of the blended RLOG transfer across the splice window. -/
lemma rlogWindow_mono {a c t K : ℝ} (ha : 1 ≤ a) (ha' : a ≤ 16) (hc : 1/2 ≤ c)
    (hc' : c ≤ 3) (ht : 2/5 ≤ t) (ht' : t ≤ 7/10)
    (hK : K = Real.log (1 + a*t) * (1 + c*t) / (t * Real.log (1 + a))) :
    MonotoneOn (fun x => Real.log (1 + a*x) / Real.log (1 + a) +
      smoothW t x * (K * x / (1 + c*x) - Real.log (1 + a*x) / Real.log (1 + a)))
      (Set.Icc (t - 1/20) (t + 1/20)) := by
  have hL : 0 < Real.log (1 + a) := Real.log_pos (by linarith)
  have hat : (0:ℝ) < a*t := by nlinarith
  have hΛ : 0 < Real.log (1 + a*t) := Real.log_pos (by linarith)
  have htpos : (0:ℝ) < t := by linarith
  have hct : (0:ℝ) < 1 + c*t := by nlinarith
  have hKpos : 0 < K := by
    rw [hK]; exact div_pos (mul_pos hΛ hct) (mul_pos htpos hL)
  have hA1 : (0:ℝ) < 1 + a*(t - 1/20) := by nlinarith
  have hA2 : (0:ℝ) < 1 + a*(t + 1/20) := by nlinarith
  have hB1 : (0:ℝ) < 1 + c*(t - 1/20) := by nlinarith
  have hB2 : (0:ℝ) < 1 + c*(t + 1/20) := by nlinarith
  -- the two slope envelopes and the Lipschitz constant of the segment gap
  set L1 : ℝ := a / ((1 + a*(t + 1/20)) * Real.log (1 + a)) with hL1def
  set U1 : ℝ := a / ((1 + a*(t - 1/20)) * Real.log (1 + a)) with hU1def
  set L2 : ℝ := K / (1 + c*(t + 1/20))^2 with hL2def
  set U2 : ℝ := K / (1 + c*(t - 1/20))^2 with hU2def
  set G : ℝ := max (U1 - L2) (U2 - L1) with hGdef
  have hL1pos : 0 < L1 := by rw [hL1def]; positivity
  have hL2pos : 0 < L2 := by rw [hL2def]; positivity
  have hr1 : U1 ≤ 3 * L1 := rlogRate1 ha ha' ht ht'
  have hr2 : U1 ≤ 4 * L2 := by
    rw [hU1def, hL2def, hK]; exact rlogRate2 ha ha' hc hc' ht ht'
  have hr3 : U2 ≤ 4 * L1 := by
    rw [hU2def, hL1def, hK]; exact rlogRate3 ha ha' hc hc' ht ht'
  have hr4 : U2 ≤ 4 * L2 := rlogRate4 hKpos.le hc hc' ht ht'
  have hU1ge : L1 ≤ U1 := by
    rw [hL1def, hU1def]
    apply div_denom_anti (by linarith) (by positivity)
    apply mul_le_mul_of_nonneg_right (by nlinarith) hL.le
  have hU2ge : L2 ≤ U2 := by
    rw [hL2def, hU2def]
    apply div_denom_anti hKpos.le (by positivity)
    apply pow_le_pow_left hB1.le (by nlinarith) 2
  have hG0 : 0 ≤ G := by
    rcases le_total L1 L2 with h | h
    · exact le_trans (by linarith) (le_max_right (U1 - L2) (U2 - L1))
    · exact le_trans (by linarith) (le_max_left (U1 - L2) (U2 - L1))
  have hcomb : (1/3) * G ≤ min L1 L2 := rateCombine hL1pos.le hL2pos.le hr1 hr2 hr3 hr4
  -- denominators are positive throughout the window
  have hdenA : ∀ x ∈ Set.Icc (t - 1/20) (t + 1/20), (0:ℝ) < 1 + a*x := by
    intro x hx
    nlinarith [hx.1, hx.2]
  have hdenB : ∀ x ∈ Set.Icc (t - 1/20) (t + 1/20), (0:ℝ) < 1 + c*x := by
    intro x hx
    nlinarith [hx.1, hx.2]
  -- pointwise envelopes for the two segment slopes
  have hf1ub : ∀ y ∈ Set.Icc (t - 1/20) (t + 1/20),
      a / ((1 + a*y) * Real.log (1 + a)) ≤ U1 := by
    intro y hy
    rw [hU1def]
    apply div_denom_anti (by linarith) (by positivity)
    apply mul_le_mul_of_nonneg_right (by nlinarith [hy.1]) hL.le
  have hf1lb : ∀ y ∈ Set.Icc (t - 1/20) (t + 1/20),
      L1 ≤ a / ((1 + a*y) * Real.log (1 + a)) := by
    intro y hy
    rw [hL1def]
    apply div_denom_anti (by linarith) (mul_pos (hdenA y hy) hL)
    apply mul_le_mul_of_nonneg_right (by nlinarith [hy.2]) hL.le
  have hf2ub : ∀ y ∈ Set.Icc (t - 1/20) (t + 1/20),
      K / (1 + c*y)^2 ≤ U2 := by
    intro y hy
    rw [hU2def]
    apply div_denom_anti hKpos.le (by positivity)
    apply pow_le_pow_left hB1.le (by nlinarith [hy.1]) 2
  have hf2lb : ∀ y ∈ Set.Icc (t - 1/20) (t + 1/20),
      L2 ≤ K / (1 + c*y)^2 := by
    intro y hy
    rw [hL2def]
    apply div_denom_anti hKpos.le (pow_pos (hdenB y hy) 2)
    apply pow_le_pow_left (by nlinarith [hy.1] : (0:ℝ) ≤ 1 + c*y) (by nlinarith [hy.2]) 2
  -- derivative of the blended transfer at each point of the window
  have hF : ∀ x ∈ Set.Icc (t - 1/20) (t + 1/20),
      HasDerivAt (fun x => Real.log (1 + a*x) / Real.log (1 + a) +
        smoothW t x * (K * x / (1 + c*x) - Real.log (1 + a*x) / Real.log (1 + a)))
        (a / ((1 + a*x) * Real.log (1 + a)) +
          ((600*(x - t + 1/20) - 6000*(x - t + 1/20)^2) *
            (K * x / (1 + c*x) - Real.log (1 + a*x) / Real.log (1 + a)) +
          smoothW t x *
            (K / (1 + c*x)^2 - a / ((1 + a*x) * Real.log (1 + a))))) x := by
    intro x hx
    have hf1 := rlogDark_hasDeriv a (Real.log (1 + a)) x (hdenA x hx).ne'
    have hf2 := rlogHigh_hasDeriv K c x (hdenB x hx).ne'
    exact hf1.add ((smoothW_hasDeriv t x).mul (hf2.sub hf1))
  -- the gap between the segments vanishes at the threshold
  have hgt : K * t / (1 + c*t) - Real.log (1 + a*t) / Real.log (1 + a) = 0 := by
    rw [hK]
    field_simp
    ring
  have htmem : t ∈ Set.Icc (t - 1/20) (t + 1/20) := by
    constructor <;> linarith
  -- the segment gap has derivative bounded by G in norm over the window
  have hderivs : ∀ y ∈ Set.Icc (t - 1/20) (t + 1/20),
      HasDerivWithinAt (fun y => K * y / (1 + c*y) -
        Real.log (1 + a*y) / Real.log (1 + a))
        (K / (1 + c*y)^2 - a / ((1 + a*y) * Real.log (1 + a)))
        (Set.Icc (t - 1/20) (t + 1/20)) y := by
    intro y hy
    exact ((rlogHigh_hasDeriv K c y (hdenB y hy).ne').sub
      (rlogDark_hasDeriv a (Real.log (1 + a)) y (hdenA y hy).ne')).hasDerivWithinAt
  have hbound : ∀ y ∈ Set.Icc (t - 1/20) (t + 1/20),
      ‖K / (1 + c*y)^2 - a / ((1 + a*y) * Real.log (1 + a))‖ ≤ G := by
    intro y hy
    rw [Real.norm_eq_abs, abs_le]
    constructor
    · have h1 := hf1ub y hy
      have h2 := hf2lb y hy
      have h3 : U1 - L2 ≤ G := le_max_left (U1 - L2) (U2 - L1)
      linarith
    · have h1 := hf1lb y hy
      have h2 := hf2ub y hy
      have h3 : U2 - L1 ≤ G := le_max_right (U1 - L2) (U2 - L1)
      linarith
  have hgap : ∀ x ∈ Set.Icc (t - 1/20) (t + 1/20),
      |K * x / (1 + c*x) - Real.log (1 + a*x) / Real.log (1 + a)| ≤ G * |x - t| := by
    intro x hx
    have hmvt := Convex.norm_image_sub_le_of_norm_hasDerivWithin_le hderivs hbound
      (convex_Icc (t - 1/20) (t + 1/20)) htmem hx
    rw [Real.norm_eq_abs, Real.norm_eq_abs, hgt, sub_zero] at hmvt
    exact hmvt
  -- monotone via nonnegative derivative
  apply monotoneOn_of_deriv_nonneg (convex_Icc (t - 1/20) (t + 1/20))
  · intro x hx
    exact (hF x hx).continuousAt.continuousWithinAt
  · intro x hx
    rw [interior_Icc] at hx
    exact (hF x (Set.mem_Icc_of_Ioo hx)).differentiableAt.differentiableWithinAt
  · intro x hx
    rw [interior_Icc] at hx
    have hxm : x ∈ Set.Icc (t - 1/20) (t + 1/20) := Set.mem_Icc_of_Ioo hx
    rw [(hF x hxm).deriv]
    have hW := smoothW_mem t x hxm
    have hW' := smoothW_deriv_nonneg t x hxm
    have hWd := smoothW_deriv_dist t x hxm
    -- the cross term is at least -G/3
    have hcross : -(1/3 * G) ≤ (600*(x - t + 1/20) - 6000*(x - t + 1/20)^2) *
        (K * x / (1 + c*x) - Real.log (1 + a*x) / Real.log (1 + a)) := by
      have habs : |(600*(x - t + 1/20) - 6000*(x - t + 1/20)^2) *
          (K * x / (1 + c*x) - Real.log (1 + a*x) / Real.log (1 + a))|
          = (600*(x - t + 1/20) - 6000*(x - t + 1/20)^2) *
            |K * x / (1 + c*x) - Real.log (1 + a*x) / Real.log (1 + a)| := by
        rw [abs_mul, abs_of_nonneg hW']
      have hb1 : (600*(x - t + 1/20) - 6000*(x - t + 1/20)^2) *
          |K * x / (1 + c*x) - Real.log (1 + a*x) / Real.log (1 + a)|
          ≤ (600*(x - t + 1/20) - 6000*(x - t + 1/20)^2) * (G * |x - t|) :=
        mul_le_mul_of_nonneg_left (hgap x hxm) hW'
      have hb2 : (600*(x - t + 1/20) - 6000*(x - t + 1/20)^2) * (G * |x - t|)
          ≤ G * (1/3) := by
        have hcommute : (600*(x - t + 1/20) - 6000*(x - t + 1/20)^2) * (G * |x - t|)
            = G * ((600*(x - t + 1/20) - 6000*(x - t + 1/20)^2) * |x - t|) := by ring
        rw [hcommute]
        exact mul_le_mul_of_nonneg_left hWd hG0
      have hneg := neg_abs_le ((600*(x - t + 1/20) - 6000*(x - t + 1/20)^2) *
        (K * x / (1 + c*x) - Real.log (1 + a*x) / Real.log (1 + a)))
      rw [habs] at hneg
      linarith
    -- the convex combination of segment slopes is at least min L1 L2
    have hmix : min L1 L2 ≤ a / ((1 + a*x) * Real.log (1 + a)) +
        smoothW t x * (K / (1 + c*x)^2 - a / ((1 + a*x) * Real.log (1 + a))) := by
      have m1 : min L1 L2 ≤ a / ((1 + a*x) * Real.log (1 + a)) :=
        (min_le_left L1 L2).trans (hf1lb x hxm)
      have m2 : min L1 L2 ≤ K / (1 + c*x)^2 := (min_le_right L1 L2).trans (hf2lb x hxm)
      nlinarith [mul_le_mul_of_nonneg_left m2 hW.1,
        mul_le_mul_of_nonneg_left m1 (by linarith [hW.2] : (0:ℝ) ≤ 1 - smoothW t x)]
    have hmin : (1/3) * G ≤ min L1 L2 := hcomb
    linarith

/-- Transport of monotonicity along pointwise agreement. -/
lemma monotoneOn_congrOn {f g : ℝ → ℝ} {s : Set ℝ} (h : MonotoneOn f s)
    (he : ∀ x ∈ s, g x = f x) : MonotoneOn g s := by
  intro x hx y hy hxy
  rw [he x hx, he y hy]
  exact h hx hy hxy

/-- Sewing monotonicity over two adjacent closed intervals. -/
lemma monotoneOn_Icc_union {f : ℝ → ℝ} {a b c : ℝ} (hab : a ≤ b) (hbc : b ≤ c)
    (h1 : MonotoneOn f (Set.Icc a b)) (h2 : MonotoneOn f (Set.Icc b c)) :
    MonotoneOn f (Set.Icc a c) := by
  intro x hx y hy hxy
  rcases le_total x b with h | h
  · rcases le_total y b with h' | h'
    · exact h1 ⟨hx.1, h⟩ ⟨hy.1, h'⟩ hxy
    · exact (h1 ⟨hx.1, h⟩ ⟨hab, le_rfl⟩ h).trans (h2 ⟨le_rfl, hbc⟩ ⟨h', hy.2⟩ h')
  · exact h2 ⟨h, hx.2⟩ ⟨h.trans hxy, hy.2⟩ hxy


/-- On `[0,1]` up to the start of the splice window, `ApplyRLOG` is the dark
segment. -/
lemma applyRLOG_eq_dark (P : CphParamsR) (ht : 0.4 ≤ P.rlog_t) {x : ℝ}
    (hx : x ≤ P.rlog_t - 0.05) : ApplyRLOG P x = RLOGDarkSegment P x := by
  simp only [ApplyRLOG]
  rcases lt_or_eq_of_le hx with h | h
  · rw [if_pos h]
  · rw [if_neg (by rw [h]; exact lt_irrefl _), if_neg (by rw [h]; intro hcon; linarith), h]
    have hstep : SmoothStep (P.rlog_t - 0.05) (P.rlog_t + 0.05) (P.rlog_t - 0.05) = 0 := by
      simp only [SmoothStep]
      rw [if_neg (by intro hcon; linarith)]
      have : clampR ((P.rlog_t - 0.05 - (P.rlog_t - 0.05)) /
          (P.rlog_t + 0.05 - (P.rlog_t - 0.05))) 0 1 = 0 := by
        rw [show P.rlog_t - 0.05 - (P.rlog_t - 0.05) = 0 by ring, zero_div]
        exact clampR_of_mem le_rfl zero_le_one
      rw [this]
      ring
    rw [hstep]
    simp only [Mix]
    ring

/-- On the splice window, `ApplyRLOG` is the smoothstep blend of the dark segment and
the continuity-rescaled highlight segment. -/
lemma applyRLOG_eq_window (P : CphParamsR) (ha : 1 ≤ P.rlog_a) (hb : 0.8 ≤ P.rlog_b)
    (hc : 0.5 ≤ P.rlog_c) (ht : 0.4 ≤ P.rlog_t) (ht' : P.rlog_t ≤ 0.7) {x : ℝ}
    (hx1 : P.rlog_t - 0.05 ≤ x) (hx2 : x ≤ P.rlog_t + 0.05) :
    ApplyRLOG P x =
      Real.log (1 + P.rlog_a * x) / Real.log (1 + P.rlog_a) +
      smoothW P.rlog_t x *
        (Real.log (1 + P.rlog_a * P.rlog_t) * (1 + P.rlog_c * P.rlog_t) /
          (P.rlog_t * Real.log (1 + P.rlog_a)) * x / (1 + P.rlog_c * x) -
         Real.log (1 + P.rlog_a * x) / Real.log (1 + P.rlog_a)) := by
  have hL : 0 < Real.log (1 + P.rlog_a) := Real.log_pos (by linarith)
  have hx0 : ¬ (x ≤ 0) := by push_neg; linarith
  have hxlt1 : ¬ (x ≥ 1) := by push_neg; linarith
  have ht0 : ¬ (P.rlog_t ≤ 0) := by push_neg; linarith
  have htlt1 : ¬ (P.rlog_t ≥ 1) := by push_neg; linarith
  have hdcx : (0:ℝ) < 1 + P.rlog_c * x := by nlinarith
  have hdct : (0:ℝ) < 1 + P.rlog_c * P.rlog_t := by nlinarith
  have hdark : RLOGDarkSegment P x =
      Real.log (1 + P.rlog_a * x) / Real.log (1 + P.rlog_a) := by
    simp only [RLOGDarkSegment]
    rw [if_neg hx0, if_neg hxlt1, if_neg (not_le.mpr hL)]
  have hdarkt : RLOGDarkSegment P P.rlog_t =
      Real.log (1 + P.rlog_a * P.rlog_t) / Real.log (1 + P.rlog_a) := by
    simp only [RLOGDarkSegment]
    rw [if_neg ht0, if_neg htlt1, if_neg (not_le.mpr hL)]
  have hhix : RLOGHighlightSegment P x = P.rlog_b * x / (1 + P.rlog_c * x) := by
    simp only [RLOGHighlightSegment]
    rw [if_neg hx0, if_neg hxlt1, if_neg (not_le.mpr hdcx)]
  have hhit : RLOGHighlightSegment P P.rlog_t =
      P.rlog_b * P.rlog_t / (1 + P.rlog_c * P.rlog_t) := by
    simp only [RLOGHighlightSegment]
    rw [if_neg ht0, if_neg htlt1, if_neg (not_le.mpr hdct)]
  have hhitpos : 0 < P.rlog_b * P.rlog_t / (1 + P.rlog_c * P.rlog_t) := by
    apply div_pos (by nlinarith) hdct
  have hstep : SmoothStep (P.rlog_t - 0.05) (P.rlog_t + 0.05) x = smoothW P.rlog_t x := by
    simp only [SmoothStep, smoothW]
    rw [if_neg (by push_neg; linarith)]
    have harg : (x - (P.rlog_t - 0.05)) / (P.rlog_t + 0.05 - (P.rlog_t - 0.05)) =
        (x - P.rlog_t + 1/20) * 10 := by
      rw [show P.rlog_t + 0.05 - (P.rlog_t - 0.05) = (1/10 : ℝ) by linarith]
      rw [div_eq_iff (by norm_num : (1/10 : ℝ) ≠ 0)]
      linarith
    rw [harg, clampR_of_mem (by linarith) (by linarith)]
  simp only [ApplyRLOG]
  rw [if_neg (not_lt.mpr hx1), if_neg (not_lt.mpr hx2), hstep, hdark, hdarkt, hhix, hhit,
    if_pos hhitpos]
  simp only [Mix]
  have hy2 : P.rlog_b * x / (1 + P.rlog_c * x) *
      (Real.log (1 + P.rlog_a * P.rlog_t) / Real.log (1 + P.rlog_a) /
        (P.rlog_b * P.rlog_t / (1 + P.rlog_c * P.rlog_t))) =
      Real.log (1 + P.rlog_a * P.rlog_t) * (1 + P.rlog_c * P.rlog_t) /
        (P.rlog_t * Real.log (1 + P.rlog_a)) * x / (1 + P.rlog_c * x) := by
    have hbne : P.rlog_b ≠ 0 := by positivity
    have htne : P.rlog_t ≠ 0 := by positivity
    field_simp
    ring
  rw [hy2]

/-- Beyond the splice window, `ApplyRLOG` is the continuity-rescaled highlight
segment. -/
lemma applyRLOG_eq_highlight (P : CphParamsR) (ha : 1 ≤ P.rlog_a) (hb : 0.8 ≤ P.rlog_b)
    (hc : 0.5 ≤ P.rlog_c) (ht : 0.4 ≤ P.rlog_t) (ht' : P.rlog_t ≤ 0.7) {x : ℝ}
    (hx1 : P.rlog_t + 0.05 ≤ x) (hx2 : x ≤ 1) :
    ApplyRLOG P x =
      Real.log (1 + P.rlog_a * P.rlog_t) * (1 + P.rlog_c * P.rlog_t) /
        (P.rlog_t * Real.log (1 + P.rlog_a)) * x / (1 + P.rlog_c * x) := by
  have hL : 0 < Real.log (1 + P.rlog_a) := Real.log_pos (by linarith)
  have hx0 : ¬ (x ≤ 0) := by push_neg; linarith
  have ht0 : ¬ (P.rlog_t ≤ 0) := by push_neg; linarith
  have htlt1 : ¬ (P.rlog_t ≥ 1) := by push_neg; linarith
  have hdcx : (0:ℝ) < 1 + P.rlog_c * x := by nlinarith
  have hdct : (0:ℝ) < 1 + P.rlog_c * P.rlog_t := by nlinarith
  have hdarkt : RLOGDarkSegment P P.rlog_t =
      Real.log (1 + P.rlog_a * P.rlog_t) / Real.log (1 + P.rlog_a) := by
    simp only [RLOGDarkSegment]
    rw [if_neg ht0, if_neg htlt1, if_neg (not_le.mpr hL)]
  have hhit : RLOGHighlightSegment P P.rlog_t =
      P.rlog_b * P.rlog_t / (1 + P.rlog_c * P.rlog_t) := by
    simp only [RLOGHighlightSegment]
    rw [if_neg ht0, if_neg htlt1, if_neg (not_le.mpr hdct)]
  have hhitpos : 0 < P.rlog_b * P.rlog_t / (1 + P.rlog_c * P.rlog_t) := by
    apply div_pos (by nlinarith) hdct
  have hhigh : RLOGHighlightSegment P x *
      (Real.log (1 + P.rlog_a * P.rlog_t) / Real.log (1 + P.rlog_a) /
        (P.rlog_b * P.rlog_t / (1 + P.rlog_c * P.rlog_t))) =
      Real.log (1 + P.rlog_a * P.rlog_t) * (1 + P.rlog_c * P.rlog_t) /
        (P.rlog_t * Real.log (1 + P.rlog_a)) * x / (1 + P.rlog_c * x) := by
    rcases eq_or_lt_of_le hx2 with h1 | h1
    · simp only [RLOGHighlightSegment]
      rw [if_neg hx0, if_pos (ge_of_eq h1), h1]
      have hbne : P.rlog_b ≠ 0 := by positivity
      have htne : P.rlog_t ≠ 0 := by positivity
      field_simp
      ring
    · simp only [RLOGHighlightSegment]
      rw [if_neg hx0, if_neg (not_le.mpr h1), if_neg (not_le.mpr hdcx)]
      have hbne : P.rlog_b ≠ 0 := by positivity
      have htne : P.rlog_t ≠ 0 := by positivity
      field_simp
      ring
  simp only [ApplyRLOG]
  rcases eq_or_lt_of_le hx1 with h | h
  · rw [if_neg (by push_neg; linarith), if_neg (by push_neg; linarith)]
    have hstep : SmoothStep (P.rlog_t - 0.05) (P.rlog_t + 0.05) x = 1 := by
      simp only [SmoothStep]
      rw [if_neg (by push_neg; linarith)]
      have harg : (x - (P.rlog_t - 0.05)) / (P.rlog_t + 0.05 - (P.rlog_t - 0.05)) = 1 := by
        rw [← h]
        rw [show P.rlog_t + 0.05 - (P.rlog_t - 0.05) = (1/10 : ℝ) by linarith]
        rw [div_eq_iff (by norm_num : (1/10 : ℝ) ≠ 0)]
        linarith
      rw [harg, clampR_of_mem zero_le_one le_rfl]
      ring
    rw [hstep, hdarkt, hhit, if_pos hhitpos]
    simp only [Mix]
    rw [← hhigh]
    simp only [RLOGHighlightSegment]
    ring
  · rw [if_neg (by push_neg; linarith), if_pos h, hdarkt, hhit, if_pos hhitpos, hhigh]

/-- The dark segment is non-decreasing below the splice window. -/
lemma rlogDark_monotoneOn (P : CphParamsR) (ha : 1 ≤ P.rlog_a) (ht' : P.rlog_t ≤ 0.7) :
    MonotoneOn (RLOGDarkSegment P) (Set.Icc (0:ℝ) (P.rlog_t - 0.05)) := by
  have hL : 0 < Real.log (1 + P.rlog_a) := Real.log_pos (by linarith)
  intro x hx y hy hxy
  simp only [RLOGDarkSegment]
  have hxlt1 : ¬ (x ≥ 1) := by push_neg; linarith [hx.2]
  have hylt1 : ¬ (y ≥ 1) := by push_neg; linarith [hy.2]
  rcases le_or_lt x 0 with h0 | h0
  · rw [if_pos h0]
    rcases le_or_lt y 0 with h0' | h0'
    · rw [if_pos h0']
    · rw [if_neg (not_le.mpr h0'), if_neg hylt1, if_neg (not_le.mpr hL)]
      apply div_nonneg _ hL.le
      apply Real.log_nonneg
      nlinarith
  · have h0' : ¬ (y ≤ 0) := by push_neg; linarith
    rw [if_neg (not_le.mpr h0), if_neg h0', if_neg hxlt1, if_neg hylt1,
      if_neg (not_le.mpr hL), if_neg (not_le.mpr hL)]
    have h1 : (0:ℝ) < 1 + P.rlog_a * x := by nlinarith
    have h2 : 1 + P.rlog_a * x ≤ 1 + P.rlog_a * y := by nlinarith
    apply (div_le_div_right hL).mpr
    exact Real.log_le_log h1 h2

/-- The rescaled rational segment is non-decreasing on nonnegative inputs. -/
lemma rationalScaled_monotoneOn {K c : ℝ} (hK : 0 ≤ K) (hc : 0 ≤ c) :
    MonotoneOn (fun x => K * x / (1 + c*x)) (Set.Ici (0:ℝ)) := by
  intro x hx y hy hxy
  have h := rationalCompress_mono hc hx hxy
  have hdx : (0:ℝ) < 1 + c*x := by nlinarith [Set.mem_Ici.mp hx]
  have hdy : (0:ℝ) < 1 + c*y := by nlinarith [Set.mem_Ici.mp hy]
  calc K * x / (1 + c*x) = K * (x / (1 + c*x)) := by ring
    _ ≤ K * (y / (1 + c*y)) := mul_le_mul_of_nonneg_left h hK
    _ = K * y / (1 + c*y) := by ring

/-- The RLOG transfer is non-decreasing on the unit interval for in-range parameters. -/
lemma applyRLOG_monotoneOn (P : CphParamsR) (ha : 1 ≤ P.rlog_a) (ha' : P.rlog_a ≤ 16)
    (hb : 0.8 ≤ P.rlog_b) (hc : 0.5 ≤ P.rlog_c) (hc' : P.rlog_c ≤ 3)
    (ht : 0.4 ≤ P.rlog_t) (ht' : P.rlog_t ≤ 0.7) :
    MonotoneOn (ApplyRLOG P) (Set.Icc (0:ℝ) 1) := by
  have hL : 0 < Real.log (1 + P.rlog_a) := Real.log_pos (by linarith)
  have hΛ : 0 ≤ Real.log (1 + P.rlog_a * P.rlog_t) := Real.log_nonneg (by nlinarith)
  have h1 : MonotoneOn (ApplyRLOG P) (Set.Icc (0:ℝ) (P.rlog_t - 0.05)) :=
    monotoneOn_congrOn (rlogDark_monotoneOn P ha ht')
      (fun x hx => applyRLOG_eq_dark P ht hx.2)
  have h2 : MonotoneOn (ApplyRLOG P)
      (Set.Icc (P.rlog_t - 0.05) (P.rlog_t + 0.05)) := by
    have hw := rlogWindow_mono (a := P.rlog_a) (c := P.rlog_c) (t := P.rlog_t)
      (by linarith) (by linarith) (by linarith) (by linarith) (by linarith) (by linarith)
      rfl
    have hset : Set.Icc (P.rlog_t - 0.05) (P.rlog_t + 0.05) =
        Set.Icc (P.rlog_t - 1/20) (P.rlog_t + 1/20) := by norm_num
    rw [hset]
    exact monotoneOn_congrOn hw
      (fun x hx => applyRLOG_eq_window P ha hb hc ht ht'
        (by linarith [hx.1]) (by linarith [hx.2]))
  have h3 : MonotoneOn (ApplyRLOG P) (Set.Icc (P.rlog_t + 0.05) (1:ℝ)) := by
    have hK0 : 0 ≤ Real.log (1 + P.rlog_a * P.rlog_t) * (1 + P.rlog_c * P.rlog_t) /
        (P.rlog_t * Real.log (1 + P.rlog_a)) := by
      apply div_nonneg (mul_nonneg hΛ (by nlinarith)) (by nlinarith)
    have hsub : Set.Icc (P.rlog_t + 0.05) (1:ℝ) ⊆ Set.Ici (0:ℝ) := by
      intro x hx
      exact Set.mem_Ici.mpr (by linarith [hx.1])
    have hm := (rationalScaled_monotoneOn hK0 (by linarith : (0:ℝ) ≤ P.rlog_c)).mono hsub
    exact monotoneOn_congrOn hm
      (fun x hx => applyRLOG_eq_highlight P ha hb hc ht ht' hx.1 hx.2)
  exact monotoneOn_Icc_union (by linarith) (by linarith)
    (monotoneOn_Icc_union (by linarith) (by linarith) h1 h2) h3

lemma clampR_zero_of_nonpos {v : ℝ} (h : v ≤ 0) : clampR v 0 1 = 0 := by
  unfold clampR
  split_ifs with h1 h2 <;> linarith

lemma clampR_one_of_ge {v : ℝ} (h : 1 ≤ v) : clampR v 0 1 = 1 := by
  unfold clampR
  split_ifs with h1 h2 <;> linarith

lemma smoothStep_mem (e0 e1 x : ℝ) : SmoothStep e0 e1 x ∈ Set.Icc (0:ℝ) 1 := by
  simp only [SmoothStep]
  split_ifs with h
  · exact ⟨le_rfl, zero_le_one⟩
  · obtain ⟨hs0, hs1⟩ := clampR_mem (v := (x - e0) / (e1 - e0)) zero_le_one
    constructor
    · nlinarith
    · nlinarith [sq_nonneg (clampR ((x - e0) / (e1 - e0)) 0 1 - 1)]

lemma smoothStep_mono {e0 e1 : ℝ} (h : e0 < e1) : Monotone (SmoothStep e0 e1) := by
  intro x y hxy
  simp only [SmoothStep]
  rw [if_neg (not_le.mpr h), if_neg (not_le.mpr h)]
  obtain ⟨hx0, hx1⟩ := clampR_mem (v := (x - e0) / (e1 - e0)) zero_le_one
  obtain ⟨hy0, hy1⟩ := clampR_mem (v := (y - e0) / (e1 - e0)) zero_le_one
  have h12 : clampR ((x - e0) / (e1 - e0)) 0 1 ≤ clampR ((y - e0) / (e1 - e0)) 0 1 := by
    apply clampR_mono zero_le_one
    exact (div_le_div_right (by linarith)).mpr (by linarith)
  set s1 := clampR ((x - e0) / (e1 - e0)) 0 1
  set s2 := clampR ((y - e0) / (e1 - e0)) 0 1
  nlinarith [mul_nonneg (sub_nonneg.mpr h12) (mul_nonneg hx0 (by linarith : (0:ℝ) ≤ 1 - s2)),
    mul_nonneg (sub_nonneg.mpr h12) (mul_nonneg hy0 (by linarith : (0:ℝ) ≤ 1 - s1)),
    mul_nonneg (sub_nonneg.mpr h12) (mul_nonneg hx0 (by linarith : (0:ℝ) ≤ 1 - s1)),
    mul_nonneg (sub_nonneg.mpr h12) (mul_nonneg hy0 (by linarith : (0:ℝ) ≤ 1 - s2)),
    mul_nonneg (sub_nonneg.mpr h12) (mul_nonneg hx0 hy0)]

/-- Weighted-mix comparison: larger endpoints and a larger weight toward the larger
endpoint give a larger mix. -/
lemma mix_mono {s1 s2 h1 h2 w1 w2 : ℝ} (hs : s1 ≤ s2) (hh : h1 ≤ h2) (hsh : s2 ≤ h2)
    (hw1 : 0 ≤ w1) (hw12 : w1 ≤ w2) (hw2 : w2 ≤ 1) : Mix s1 h1 w1 ≤ Mix s2 h2 w2 := by
  simp only [Mix]
  nlinarith [mul_le_mul_of_nonneg_left hs (by linarith : (0:ℝ) ≤ 1 - w1),
    mul_le_mul_of_nonneg_left hh hw1,
    mul_le_mul_of_nonneg_right hw12 (by linarith : (0:ℝ) ≤ h2 - s2)]

lemma pprShadow_le_pivot (P : CphParamsR) (hp : 0.05 ≤ P.pivot_pq)
    (hg : 1 ≤ P.gamma_s) (x : ℝ) : PPRShadowSegment P x ≤ P.pivot_pq := by
  simp only [PPRShadowSegment]
  split_ifs with h1 h2 h3
  · linarith
  · linarith
  · exact le_rfl
  · push_neg at h1 h3
    have hxp : (0:ℝ) < x / P.pivot_pq := div_pos h1 (by linarith)
    have hle : (x / P.pivot_pq) ^ P.gamma_s ≤ 1 := by
      apply Real.rpow_le_one hxp.le _ (by linarith)
      rw [div_le_one (by linarith)]
      linarith
    nlinarith

lemma pprShadow_nonneg (P : CphParamsR) (hp : 0.05 ≤ P.pivot_pq) (x : ℝ) :
    0 ≤ PPRShadowSegment P x := by
  simp only [PPRShadowSegment]
  split_ifs with h1 h2 h3
  · exact le_rfl
  · linarith
  · linarith
  · push_neg at h1 h3
    exact mul_nonneg (Real.rpow_nonneg (div_nonneg h1.le (by linarith)) _) (by linarith)

lemma pprShadow_mono (P : CphParamsR) (hp : 0.05 ≤ P.pivot_pq)
    (hg : 1 ≤ P.gamma_s) : Monotone (PPRShadowSegment P) := by
  intro x y hxy
  have hppos : (0:ℝ) < P.pivot_pq := by linarith
  by_cases hx0 : x ≤ 0
  · have h0 : PPRShadowSegment P x = 0 := by
      simp only [PPRShadowSegment]
      rw [if_pos hx0]
    rw [h0]
    exact pprShadow_nonneg P hp y
  · push_neg at hx0
    have hy0 : ¬ (y ≤ 0) := by push_neg; linarith
    by_cases hxp : x ≥ P.pivot_pq
    · have hyp : y ≥ P.pivot_pq := le_trans hxp hxy
      simp only [PPRShadowSegment]
      rw [if_neg (not_le.mpr hx0), if_neg (by push_neg; linarith), if_pos hxp,
        if_neg hy0, if_neg (by push_neg; linarith), if_pos hyp]
    · simp only [PPRShadowSegment]
      rw [if_neg (not_le.mpr hx0), if_neg (by push_neg; linarith), if_neg hxp]
      push_neg at hxp
      by_cases hyp : y ≥ P.pivot_pq
      · rw [if_neg hy0, if_neg (by push_neg; linarith), if_pos hyp]
        have hle : (x / P.pivot_pq) ^ P.gamma_s ≤ 1 := by
          apply Real.rpow_le_one (div_nonneg hx0.le hppos.le) _ (by linarith)
          rw [div_le_one hppos]
          linarith
        nlinarith
      · rw [if_neg hy0, if_neg (by push_neg; linarith), if_neg hyp]
        push_neg at hyp
        apply mul_le_mul_of_nonneg_right _ hppos.le
        apply Real.rpow_le_rpow (div_nonneg hx0.le hppos.le) _ (by linarith)
        exact (div_le_div_right hppos).mpr hxy

lemma pprHighlight_ge_pivot (P : CphParamsR) (hp : 0.05 ≤ P.pivot_pq)
    (hp' : P.pivot_pq ≤ 0.3) (hs : 0.5 ≤ P.shoulder_h) (x : ℝ) :
    P.pivot_pq ≤ PPRHighlightSegment P x := by
  simp only [PPRHighlightSegment]
  split_ifs with h1 h2 h3 h4 h5
  · exact le_rfl
  · exact le_rfl
  · -- capped coordinate, nonpositive denominator: impossible
    push_neg at h2
    nlinarith
  · have : (0:ℝ) ≤ ((1:ℝ) / (1 + P.shoulder_h * 1)) ^ P.gamma_h :=
      Real.rpow_nonneg (by push_neg at h4; positivity) _
    nlinarith
  · -- uncapped coordinate, nonpositive denominator: impossible
    push_neg at h2 h5
    nlinarith [h2]
  · push_neg at h2 h5
    have hu : (0:ℝ) < (x - P.pivot_pq) / (1 - P.pivot_pq) := h2
    have : (0:ℝ) ≤ ((x - P.pivot_pq) / (1 - P.pivot_pq) /
        (1 + P.shoulder_h * ((x - P.pivot_pq) / (1 - P.pivot_pq)))) ^ P.gamma_h :=
      Real.rpow_nonneg (by positivity) _
    nlinarith

/-- Closed form of the highlight segment above the pivot. -/
lemma pprHighlight_eval (P : CphParamsR) (hp : 0.05 ≤ P.pivot_pq)
    (hp' : P.pivot_pq ≤ 0.3) (hs : 0.5 ≤ P.shoulder_h) {z : ℝ} (hz : P.pivot_pq < z) :
    PPRHighlightSegment P z =
      P.pivot_pq +
        ((if (z - P.pivot_pq) / (1 - P.pivot_pq) ≥ 1 then 1
            else (z - P.pivot_pq) / (1 - P.pivot_pq)) /
          (1 + P.shoulder_h *
            (if (z - P.pivot_pq) / (1 - P.pivot_pq) ≥ 1 then 1
              else (z - P.pivot_pq) / (1 - P.pivot_pq)))) ^ P.gamma_h *
        (1 - P.pivot_pq) := by
  have h1p : (0:ℝ) < 1 - P.pivot_pq := by linarith
  have hu0 : (0:ℝ) < (z - P.pivot_pq) / (1 - P.pivot_pq) := div_pos (by linarith) h1p
  have hu : (0:ℝ) < (if (z - P.pivot_pq) / (1 - P.pivot_pq) ≥ 1 then 1
      else (z - P.pivot_pq) / (1 - P.pivot_pq)) := by
    split_ifs
    · norm_num
    · exact hu0
  have hd : ¬ (1 + P.shoulder_h *
      (if (z - P.pivot_pq) / (1 - P.pivot_pq) ≥ 1 then 1
        else (z - P.pivot_pq) / (1 - P.pivot_pq)) ≤ 0) := by
    push_neg
    nlinarith
  simp only [PPRHighlightSegment]
  rw [if_neg (not_le.mpr hz), if_neg (not_le.mpr hu0), if_neg hd]

lemma pprHighlight_mono (P : CphParamsR) (hp : 0.05 ≤ P.pivot_pq)
    (hp' : P.pivot_pq ≤ 0.3) (hs : 0.5 ≤ P.shoulder_h) (hγ : 0.8 ≤ P.gamma_h) :
    Monotone (PPRHighlightSegment P) := by
  intro x y hxy
  rcases le_or_lt x P.pivot_pq with h | h
  · have hx : PPRHighlightSegment P x = P.pivot_pq := by
      simp only [PPRHighlightSegment]
      rw [if_pos h]
    rw [hx]
    exact pprHighlight_ge_pivot P hp hp' hs y
  · have hy : P.pivot_pq < y := lt_of_lt_of_le h hxy
    have h1p : (0:ℝ) < 1 - P.pivot_pq := by linarith
    rw [pprHighlight_eval P hp hp' hs h, pprHighlight_eval P hp hp' hs hy]
    have hu0x : (0:ℝ) < (x - P.pivot_pq) / (1 - P.pivot_pq) := div_pos (by linarith) h1p
    have hu0y : (0:ℝ) < (y - P.pivot_pq) / (1 - P.pivot_pq) := div_pos (by linarith) h1p
    have hu0le : (x - P.pivot_pq) / (1 - P.pivot_pq) ≤ (y - P.pivot_pq) / (1 - P.pivot_pq) :=
      (div_le_div_right h1p).mpr (by linarith)
    set ux := (if (x - P.pivot_pq) / (1 - P.pivot_pq) ≥ 1 then (1:ℝ)
      else (x - P.pivot_pq) / (1 - P.pivot_pq)) with hux
    set uy := (if (y - P.pivot_pq) / (1 - P.pivot_pq) ≥ 1 then (1:ℝ)
      else (y - P.pivot_pq) / (1 - P.pivot_pq)) with huy
    have huxpos : 0 < ux := by
      rw [hux]; split_ifs
      · norm_num
      · exact hu0x
    have huxy : ux ≤ uy := by
      rw [hux, huy]
      split_ifs with h1 h2 h2
      · exact le_rfl
      · push_neg at h2; linarith
      · push_neg at h1; linarith
      · exact hu0le
    have hcomp : ux / (1 + P.shoulder_h * ux) ≤ uy / (1 + P.shoulder_h * uy) :=
      rationalCompress_mono (by linarith) huxpos.le huxy
    have hrpow : (ux / (1 + P.shoulder_h * ux)) ^ P.gamma_h ≤
        (uy / (1 + P.shoulder_h * uy)) ^ P.gamma_h := by
      apply Real.rpow_le_rpow _ hcomp (by linarith)
      apply div_nonneg huxpos.le
      nlinarith
    have := mul_le_mul_of_nonneg_right hrpow h1p.le
    linarith

/-- The PPR curve is the smoothstep blend of the two segments everywhere: outside the
blend window the smoothstep weight saturates to 0 or 1. -/
lemma applyPPR_eq_mix (P : CphParamsR) (hp : 0.05 ≤ P.pivot_pq) (x : ℝ) :
    ApplyPPR P x = Mix (PPRShadowSegment P x) (PPRHighlightSegment P x)
      (SmoothStep (P.pivot_pq - P.pivot_pq * 0.1) (P.pivot_pq + P.pivot_pq * 0.1) x) := by
  have hbr : (0:ℝ) < P.pivot_pq * 0.1 := by nlinarith
  simp only [ApplyPPR]
  split_ifs with h1 h2
  · have hstep : SmoothStep (P.pivot_pq - P.pivot_pq * 0.1)
        (P.pivot_pq + P.pivot_pq * 0.1) x = 0 := by
      simp only [SmoothStep]
      rw [if_neg (by push_neg; linarith)]
      have harg : (x - (P.pivot_pq - P.pivot_pq * 0.1)) /
          (P.pivot_pq + P.pivot_pq * 0.1 - (P.pivot_pq - P.pivot_pq * 0.1)) ≤ 0 :=
        div_nonpos_of_nonpos_of_nonneg (by linarith) (by linarith)
      rw [clampR_zero_of_nonpos harg]
      ring
    rw [hstep]
    simp only [Mix]
    ring
  · have hstep : SmoothStep (P.pivot_pq - P.pivot_pq * 0.1)
        (P.pivot_pq + P.pivot_pq * 0.1) x = 1 := by
      simp only [SmoothStep]
      rw [if_neg (by push_neg; linarith)]
      have harg : 1 ≤ (x - (P.pivot_pq - P.pivot_pq * 0.1)) /
          (P.pivot_pq + P.pivot_pq * 0.1 - (P.pivot_pq - P.pivot_pq * 0.1)) := by
        rw [le_div_iff (by linarith)]
        linarith
      rw [clampR_one_of_ge harg]
      ring
    rw [hstep]
    simp only [Mix]
    ring
  · rfl

/-- The PPR curve is non-decreasing for in-range parameters. -/
lemma applyPPR_mono (P : CphParamsR) (hp : 0.05 ≤ P.pivot_pq) (hp' : P.pivot_pq ≤ 0.3)
    (hgs : 1 ≤ P.gamma_s) (hγ : 0.8 ≤ P.gamma_h) (hs : 0.5 ≤ P.shoulder_h) :
    Monotone (ApplyPPR P) := by
  intro x y hxy
  rw [applyPPR_eq_mix P hp, applyPPR_eq_mix P hp]
  have hedge : P.pivot_pq - P.pivot_pq * 0.1 < P.pivot_pq + P.pivot_pq * 0.1 := by
    nlinarith
  obtain ⟨hw0, _⟩ := smoothStep_mem (P.pivot_pq - P.pivot_pq * 0.1)
    (P.pivot_pq + P.pivot_pq * 0.1) x
  obtain ⟨_, hw1⟩ := smoothStep_mem (P.pivot_pq - P.pivot_pq * 0.1)
    (P.pivot_pq + P.pivot_pq * 0.1) y
  exact mix_mono (pprShadow_mono P hp hgs hxy) (pprHighlight_mono P hp hp' hs hγ hxy)
    (le_trans (pprShadow_le_pivot P hp hgs y) (pprHighlight_ge_pivot P hp hp' hs y))
    hw0 (smoothStep_mono hedge hxy) hw1

lemma toeClamp_mono (P : CphParamsR) : Monotone (ApplyToeClamp P) := by
  intro y z hyz
  simp only [ApplyToeClamp]
  split_ifs with h1 h2 h3
  · exact hyz
  · push_neg at h2
    rcases h1 with h | h
    · exact absurd h (not_le.mpr h2.1)
    · linarith [le_max_left z P.toe]
  · push_neg at h1
    rcases h3 with h | h
    · linarith [h1.1]
    · linarith [h1.2]
  · exact max_le_max hyz le_rfl

/-- The full tone-mapping evaluator is non-decreasing on all of ℝ for in-range
parameters, thanks to the input clamp. -/
lemma applyToneMapping_mono (P : CphParamsR) (hP : P.InRange) :
    Monotone (ApplyToneMapping P) := by
  obtain ⟨hp1, hp2, hgs1, hgs2, hgh1, hgh2, hsh1, hsh2, hbl1, hbl2, hhd1, hhd2,
    hsb1, hsb2, hshi1, hshi2, hra1, hra2, hrb1, hrb2, hrc1, hrc2, hrt1, hrt2,
    hyk1, hyk2, hal1, hal2, hto1, hto2⟩ := hP
  intro x y hxy
  simp only [ApplyToneMapping]
  apply clampR_mono zero_le_one
  apply toeClamp_mono P
  apply softKnee_mono P hyk1 hyk2 (by linarith)
  have hclamp : clampR x 0 1 ≤ clampR y 0 1 := clampR_mono zero_le_one hxy
  by_cases hcur : P.curve = CurveType.PPR
  · rw [if_pos hcur, if_pos hcur]
    exact applyPPR_mono P (by linarith) (by linarith) (by linarith) (by linarith)
      (by linarith) hclamp
  · rw [if_neg hcur, if_neg hcur]
    obtain ⟨hcx1, hcx2⟩ := clampR_mem (v := x) zero_le_one
    obtain ⟨hcy1, hcy2⟩ := clampR_mem (v := y) zero_le_one
    exact applyRLOG_monotoneOn P (by linarith) (by linarith) (by linarith) (by linarith)
      (by linarith) (by linarith) (by linarith) ⟨hcx1, hcx2⟩ ⟨hcy1, hcy2⟩ hclamp

/-- The validation grid is sorted ascending. -/
lemma generateSamplePoints_sorted (P : CphParamsR) (sc pp : ℕ) :
    (GenerateSamplePoints P sc pp).Sorted (· ≤ ·) := by
  simp only [GenerateSamplePoints]
  apply List.Pairwise.sublist (List.destutter_sublist _ _)
  apply List.sorted_insertionSort

/-- A monotone map turns any sorted list into a chain of non-decreasing values. -/
lemma chain'_of_monotone (f : ℝ → ℝ) (l : List ℝ) (hf : Monotone f)
    (hl : l.Sorted (· ≤ ·)) : l.Chain' (fun x y => f x ≤ f y) := by
  have hp : l.Pairwise (fun x y => f x ≤ f y) := hl.imp (fun h => hf h)
  exact hp.chain'

/-- The validator passes for every in-range bundle and any grid resolution. -/
lemma validateMonotonicity_of_inRange (P : CphParamsR) (hP : P.InRange) (sc pp : ℕ) :
    ValidateMonotonicity P sc pp := by
  have hs := generateSamplePoints_sorted P sc pp
  have hm := applyToneMapping_mono P hP
  have hp : (GenerateSamplePoints P sc pp).Pairwise
      (fun x y => ApplyToneMapping P x ≤ ApplyToneMapping P y) :=
    hs.imp (fun h => hm h)
  exact hp.chain'

attribute [irreducible] ToneMapper.ValidateMonotonicity ToneMapper.GenerateSamplePoints

/-- C1: the tone curve passes the monotonicity validator over the 4096-point uniform
grid plus 256 problem points for every in-range bundle. -/
theorem C1_validateMonotonicity (P : CphParamsR) (hP : P.InRange) :
    ValidateMonotonicity P 4096 256 :=
  validateMonotonicity_of_inRange P hP 4096 256

theorem C1_witness : CphParamsR.defaults.InRange ∧
    ValidateMonotonicity CphParamsR.defaults 4096 256 := by
  have h : CphParamsR.defaults.InRange := by
    norm_num [CphParamsR.InRange, CphParamsR.defaults]
  exact ⟨h, C1_validateMonotonicity _ h⟩
